import Mathlib

/-!
Verification development for the email archiver core (src/email_archiver.py).

The two algorithms under study are `detect_period` (period inference from
subject and attachment-name text) and `resolve_route` (tiered route
resolution over a tabular rule book), plus the per-message planning step of
`archive_window`.  Python strings are modelled as `String`/`List Char`
(inputs of interest are ASCII plus the U+2019 smart quote, which the source
folds to an ASCII apostrophe before matching, so the ASCII case tables used
here agree with Python's Unicode `str.lower`/`\d`/`\w`/`\s` on every string
the recognizers can accept).  Python `re` matching is modelled by a small
backtracking matcher: alternation is ordered (leftmost alternative first),
quantifiers are greedy, `finditer` scans left to right and resumes after
each non-overlapping match — exactly CPython's semantics for the patterns
in the source, none of which can match the empty string.
-/

/-- ASCII digit test, Python `\d` on the ASCII plane. -/
def isDigitC (c : Char) : Bool := 48 ≤ c.toNat && c.toNat ≤ 57

/-- ASCII letter test, the `[A-Za-z]` class from the source patterns. -/
def isAsciiLetter (c : Char) : Bool :=
  (65 ≤ c.toNat && c.toNat ≤ 90) || (97 ≤ c.toNat && c.toNat ≤ 122)

/-- Python `\w` (word character) on the ASCII plane: `[A-Za-z0-9_]`. -/
def isWordC (c : Char) : Bool := isAsciiLetter c || isDigitC c || c.toNat = 95

/-- Python `\s` on the ASCII plane: space, tab, newline, CR, VT, FF. -/
def isPySpace (c : Char) : Bool :=
  c.toNat = 32 || c.toNat = 9 || c.toNat = 10 || c.toNat = 13 || c.toNat = 11 || c.toNat = 12

/-- The separator class `[-_/\.\s]` used between date components. -/
def isSepCls (c : Char) : Bool :=
  c.toNat = 45 || c.toNat = 95 || c.toNat = 47 || c.toNat = 46 || isPySpace c

/-- The separator class `[-\./]` of the full numeric date patterns. -/
def isSepDot (c : Char) : Bool := c.toNat = 45 || c.toNat = 46 || c.toNat = 47

/-- The separator class `[-_.]` of `ISO_RGX`. -/
def isIsoSep (c : Char) : Bool := c.toNat = 45 || c.toNat = 95 || c.toNat = 46

/-- The ASCII apostrophe character, target of the smart-quote fold. -/
def aposChar : Char := Char.ofNat 39

/-- U+2019 right single quotation mark, folded by `text.replace` in the source. -/
def rsquoChar : Char := Char.ofNat 0x2019

/-- ASCII lower-casing, agreeing with Python `str.lower` on ASCII and
leaving every other character unchanged. -/
def toLowerA (c : Char) : Char :=
  if 65 ≤ c.toNat && c.toNat ≤ 90 then Char.ofNat (c.toNat + 32) else c

/-- `text_clean = text.replace("’", "'")` from `detect_period`. -/
def cleanText (t : List Char) : List Char :=
  t.map fun c => if c = rsquoChar then aposChar else c

/-- Character-wise lower-casing of a character list. -/
def lowerL (t : List Char) : List Char := t.map toLowerA

/-- Python substring containment `needle in hay`. -/
def isSubstr (needle hay : List Char) : Bool :=
  hay.tails.any fun t => needle.isPrefixOf t

/-- Matcher state: the character immediately before the current position
(needed for lookbehind and word-boundary assertions) and the remaining
input. -/
structure PState where
  prev : Option Char
  rest : List Char
deriving DecidableEq

/-- Backtracking matcher monad: all accepting continuation states, in
backtracking priority order (the head is the state Python `re` commits to). -/
def Rx (α : Type) : Type := PState → List (α × PState)

def Rx.pureR (a : α) : Rx α := fun st => [(a, st)]

def Rx.bindR (p : Rx α) (f : α → Rx β) : Rx β :=
  fun st => (p st).flatMap fun x => f x.1 x.2

instance : Monad Rx where
  pure := Rx.pureR
  bind := Rx.bindR

@[simp] theorem Rx.bind_apply (p : Rx α) (f : α → Rx β) (st : PState) :
    (p >>= f) st = (p st).flatMap fun x => f x.1 x.2 := rfl

@[simp] theorem Rx.pure_apply (a : α) (st : PState) :
    (pure a : Rx α) st = [(a, st)] := rfl

/-- Ordered alternation: left alternative has priority, as in Python `re`. -/
def rxOr (p q : Rx α) : Rx α := fun st => p st ++ q st

/-- Consume one character satisfying a class test. -/
def rxCh (f : Char → Bool) : Rx Char := fun st =>
  match st.rest with
  | [] => []
  | c :: cs => if f c then [(c, ⟨some c, cs⟩)] else []

/-- Zero-width assertion on the current state. -/
def rxAssert (ok : PState → Bool) : Rx Unit :=
  fun st => if ok st then [((), st)] else []

/-- Word boundary `\b`: exactly one side of the position is a word character. -/
def rxWordB : Rx Unit :=
  rxAssert fun st => (st.prev.any isWordC) != (st.rest.head?.any isWordC)

/-- Negative lookbehind `(?<!X)` for a single-character class. -/
def rxNotBehind (f : Char → Bool) : Rx Unit :=
  rxAssert fun st => !(st.prev.any f)

/-- Negative lookahead `(?!X)` for a single-character class. -/
def rxNotAhead (f : Char → Bool) : Rx Unit :=
  rxAssert fun st => !(st.rest.head?.any f)

/-- States reachable by a greedy character-class star, longest first. -/
def rxStarStates (f : Char → Bool) (prev : Option Char) : List Char → List (Unit × PState)
  | c :: cs =>
      if f c then rxStarStates f (some c) cs ++ [((), ⟨prev, c :: cs⟩)]
      else [((), ⟨prev, c :: cs⟩)]
  | [] => [((), ⟨prev, []⟩)]

/-- Greedy `X*` over a character class (all the source's stars are of this
shape), trying the longest consumption first. -/
def rxStar (f : Char → Bool) : Rx Unit := fun st => rxStarStates f st.prev st.rest

/-- Greedy `X?`: try with the item first, then without. -/
def rxOpt (p : Rx α) : Rx (Option α) :=
  fun st => ((p st).map fun x => (some x.1, x.2)) ++ [(none, st)]

/-- Case-insensitive literal (the literal is given in lower case). -/
def rxLitCI : List Char → Rx Unit
  | [] => pure ()
  | c :: cs => do
      _ ← rxCh fun d => toLowerA d = c
      rxLitCI cs

/-- The optional plain apostrophe `'?` appearing before year groups. -/
def rxApos : Rx Unit := do
  _ ← rxOpt (rxCh fun c => c = aposChar)
  pure ()

/-- One ASCII digit, returning its value. -/
def rxDigit : Rx Nat := do
  let c ← rxCh isDigitC
  pure (c.toNat - 48)

/-- The 4-digit year group `((?:19|20)\d{2})`. -/
def rxYear4 : Rx Nat := do
  let hi ← rxOr (do rxLitCI ['1', '9']; pure 19) (do rxLitCI ['2', '0']; pure 20)
  let a ← rxDigit
  let b ← rxDigit
  pure (hi * 100 + a * 10 + b)

/-- The group `((?:19|20)?\d{2})`, already normalized the way every use site
does it: a 4-digit match is taken literally, a 2-digit match `YY` becomes
`2000 + YY` (`norm_two_digit_year`). The greedy optional prefix is tried
first, mirroring the regex. -/
def rxYear2or4 : Rx Nat :=
  rxOr rxYear4 (do
    let a ← rxDigit
    let b ← rxDigit
    pure (2000 + a * 10 + b))

/-- The day group `([0-3]?\d)`: greedy two-digit reading first. -/
def rxD03 : Rx Nat :=
  rxOr (do
      let t ← rxCh fun c => 48 ≤ c.toNat && c.toNat ≤ 51
      let u ← rxDigit
      pure ((t.toNat - 48) * 10 + u))
    rxDigit

/-- The numeric month group `([01]?\d)`: greedy two-digit reading first. -/
def rxM01 : Rx Nat :=
  rxOr (do
      let t ← rxCh fun c => c.toNat = 48 || c.toNat = 49
      let u ← rxDigit
      pure ((t.toNat - 48) * 10 + u))
    rxDigit

/-- The strict month group `(1[0-2]|0[1-9])`. -/
def rxMonStrict : Rx Nat :=
  rxOr (do
      _ ← rxCh fun c => c.toNat = 49
      let u ← rxCh fun c => 48 ≤ c.toNat && c.toNat ≤ 50
      pure (10 + (u.toNat - 48)))
    (do
      _ ← rxCh fun c => c.toNat = 48
      let u ← rxCh fun c => 49 ≤ c.toNat && c.toNat ≤ 57
      pure (u.toNat - 48))

/-- The mandatory two-digit day group `([0-3]\d)`. -/
def rxD2 : Rx Nat := do
  let t ← rxCh fun c => 48 ≤ c.toNat && c.toNat ≤ 51
  let u ← rxDigit
  pure ((t.toNat - 48) * 10 + u)

/-- The mandatory two-digit month group `([01]\d)`. -/
def rxM2 : Rx Nat := do
  let t ← rxCh fun c => c.toNat = 48 || c.toNat = 49
  let u ← rxDigit
  pure ((t.toNat - 48) * 10 + u)

/-- The quarter digit group `([1-4])`. -/
def rxQ14 : Rx Nat := do
  let c ← rxCh fun c => 49 ≤ c.toNat && c.toNat ≤ 52
  pure (c.toNat - 48)

/-- The `MON` alternation, in source order, each word paired with the month
number that `mon_from_word` computes for it (its first three letters are a
`%b` month abbreviation). -/
def monthAlts : List (List Char × Nat) :=
  [("jan".data, 1), ("january".data, 1), ("feb".data, 2), ("february".data, 2),
   ("mar".data, 3), ("march".data, 3), ("apr".data, 4), ("april".data, 4),
   ("may".data, 5), ("jun".data, 6), ("june".data, 6), ("jul".data, 7), ("july".data, 7),
   ("aug".data, 8), ("august".data, 8), ("sep".data, 9), ("sept".data, 9),
   ("september".data, 9), ("oct".data, 10), ("october".data, 10), ("nov".data, 11),
   ("november".data, 11), ("dec".data, 12), ("december".data, 12)]

/-- The `({MON})` group: ordered, case-insensitive alternation over the
month words, returning the month number. -/
def rxMonWord : Rx Nat := fun st =>
  monthAlts.flatMap fun wn => (do rxLitCI wn.1; pure wn.2 : Rx Nat) st

/-- `pat_mon_yyyy`: `(?<![A-Za-z])({MON})(?![A-Za-z])[-_/\.\s]*'?((?:19|20)\d{2})(?!\d)`,
returning (year, month). -/
def patMonYyyy : Rx (Nat × Nat) := do
  rxNotBehind isAsciiLetter
  let m ← rxMonWord
  rxNotAhead isAsciiLetter
  rxStar isSepCls
  rxApos
  let y ← rxYear4
  rxNotAhead isDigitC
  pure (y, m)

/-- `pat_yyyy_mon`: `\b((?:19|20)\d{2})\b[-_/\.\s]*'?({MON})(?![A-Za-z])`. -/
def patYyyyMon : Rx (Nat × Nat) := do
  rxWordB
  let y ← rxYear4
  rxWordB
  rxStar isSepCls
  rxApos
  let m ← rxMonWord
  rxNotAhead isAsciiLetter
  pure (y, m)

/-- `pat_mon_yy`: `(?<![A-Za-z])({MON})(?![A-Za-z])[-_/\.\s]*'?(\d{2})(?!\d)`,
returning (raw two-digit year, month). -/
def patMonYy : Rx (Nat × Nat) := do
  rxNotBehind isAsciiLetter
  let m ← rxMonWord
  rxNotAhead isAsciiLetter
  rxStar isSepCls
  rxApos
  let a ← rxDigit
  let b ← rxDigit
  rxNotAhead isDigitC
  pure (a * 10 + b, m)

/-- `pat_dd_mon_yyyy`: `\b([0-3]?\d)[-_/\.\s]*({MON})[-_/\.\s]*'?((?:19|20)?\d{2})\b`,
returning (day, month, normalized year). -/
def patDdMonYyyy : Rx (Nat × Nat × Nat) := do
  rxWordB
  let d ← rxD03
  rxStar isSepCls
  let m ← rxMonWord
  rxStar isSepCls
  rxApos
  let y ← rxYear2or4
  rxWordB
  pure (d, m, y)

/-- `pat_mon_dd_yyyy`: `\b({MON})[-_/\.\s]*([0-3]?\d)[-_/\.\s]*'?((?:19|20)?\d{2})\b`. -/
def patMonDdYyyy : Rx (Nat × Nat × Nat) := do
  rxWordB
  let m ← rxMonWord
  rxStar isSepCls
  let d ← rxD03
  rxStar isSepCls
  rxApos
  let y ← rxYear2or4
  rxWordB
  pure (d, m, y)

/-- `pat_ddmonyyyy_contig`: `(?<!\d)([0-3]?\d)({MON})((?:19|20)?\d{2})(?!\d)`. -/
def patDdMonYyyyContig : Rx (Nat × Nat × Nat) := do
  rxNotBehind isDigitC
  let d ← rxD03
  let m ← rxMonWord
  let y ← rxYear2or4
  rxNotAhead isDigitC
  pure (d, m, y)

/-- `pat_qn_yyyy`: `\bQ([1-4])[-_/\.\s]*((?:19|20)?\d{2})\b` (case-insensitive),
returning (quarter, normalized year). -/
def patQnYyyy : Rx (Nat × Nat) := do
  rxWordB
  _ ← rxCh fun c => toLowerA c = 'q'
  let q ← rxQ14
  rxStar isSepCls
  let y ← rxYear2or4
  rxWordB
  pure (q, y)

/-- `pat_yyyy_qn`: `\b((?:19|20)?\d{2})[-_/\.\s]*Q([1-4])\b`, returning
(normalized year, quarter). -/
def patYyyyQn : Rx (Nat × Nat) := do
  rxWordB
  let y ← rxYear2or4
  rxStar isSepCls
  _ ← rxCh fun c => toLowerA c = 'q'
  let q ← rxQ14
  rxWordB
  pure (y, q)

/-- `pat_nq_yyyy`: `\b([1-4])Q[-_/\.\s]*((?:19|20)?\d{2})\b`, returning
(quarter, normalized year). -/
def patNqYyyy : Rx (Nat × Nat) := do
  rxWordB
  let q ← rxQ14
  _ ← rxCh fun c => toLowerA c = 'q'
  rxStar isSepCls
  let y ← rxYear2or4
  rxWordB
  pure (q, y)

/-- `pat_yyyy_mm`: `\b((?:19|20)\d{2})[-_/\.\s]([01]?\d)\b`. -/
def patYyyyMm : Rx (Nat × Nat) := do
  rxWordB
  let y ← rxYear4
  _ ← rxCh isSepCls
  let m ← rxM01
  rxWordB
  pure (y, m)

/-- `pat_mm_yyyy`: `\b([01]?\d)[-_/\.\s]((?:19|20)\d{2})\b`, returning (year, month). -/
def patMmYyyy : Rx (Nat × Nat) := do
  rxWordB
  let m ← rxM01
  _ ← rxCh isSepCls
  let y ← rxYear4
  rxWordB
  pure (y, m)

/-- `pat_yyyymm`: `(?<!\d)((?:19|20)\d{2})(1[0-2]|0[1-9])(?!\d)`. -/
def patYyyymm : Rx (Nat × Nat) := do
  rxNotBehind isDigitC
  let y ← rxYear4
  let m ← rxMonStrict
  rxNotAhead isDigitC
  pure (y, m)

/-- `pat_mmyyyy`: `(?<!\d)(1[0-2]|0[1-9])((?:19|20)\d{2})(?!\d)`, returning (year, month). -/
def patMmyyyy : Rx (Nat × Nat) := do
  rxNotBehind isDigitC
  let m ← rxMonStrict
  let y ← rxYear4
  rxNotAhead isDigitC
  pure (y, m)

/-- `pat_dd_mm_yyyy`: `\b([0-3]?\d)[-\./]([01]?\d)[-\./]((?:19|20)\d{2})\b`,
returning (day, month, year). -/
def patDdMmYyyy : Rx (Nat × Nat × Nat) := do
  rxWordB
  let d ← rxD03
  _ ← rxCh isSepDot
  let m ← rxM01
  _ ← rxCh isSepDot
  let y ← rxYear4
  rxWordB
  pure (d, m, y)

/-- `pat_yyyy_mm_dd`: `\b((?:19|20)\d{2})[-\./]([01]?\d)[-\./]([0-3]?\d)\b`,
returning (day, month, year). -/
def patYyyyMmDd : Rx (Nat × Nat × Nat) := do
  rxWordB
  let y ← rxYear4
  _ ← rxCh isSepDot
  let m ← rxM01
  _ ← rxCh isSepDot
  let d ← rxD03
  rxWordB
  pure (d, m, y)

/-- `pat_ddmmyyyy`: `(?<!\d)([0-3]\d)([01]\d)((?:19|20)\d{2})(?!\d)`. -/
def patDdmmyyyy : Rx (Nat × Nat × Nat) := do
  rxNotBehind isDigitC
  let d ← rxD2
  let m ← rxM2
  let y ← rxYear4
  rxNotAhead isDigitC
  pure (d, m, y)

/-- `pat_ddmmyy`: `(?<!\d)([0-3]\d)([01]\d)(\d{2})(?!\d)`, returning
(day, month, raw two-digit year). -/
def patDdmmyy : Rx (Nat × Nat × Nat) := do
  rxNotBehind isDigitC
  let d ← rxD2
  let m ← rxM2
  let a ← rxDigit
  let b ← rxDigit
  rxNotAhead isDigitC
  pure (d, m, a * 10 + b)

/-- `ISO_RGX`: `\b(20\d{2})[-_.]?([01]?\d)\b`. -/
def patIso : Rx (Nat × Nat) := do
  rxWordB
  rxLitCI ['2', '0']
  let a ← rxDigit
  let b ← rxDigit
  _ ← rxOpt (rxCh isIsoSep)
  let m ← rxM01
  rxWordB
  pure (2000 + a * 10 + b, m)

/-- One `finditer` step stream: fuelled left-to-right scan, committing to
the backtracking-first match at each position and resuming after its end
(Python's non-overlapping semantics; an empty match, impossible for these
patterns, would advance one position as CPython does). -/
def scanAux (pat : Rx α) : Nat → Option Char → List Char → List α
  | 0, _, _ => []
  | _ + 1, _, [] => []
  | fuel + 1, prev, c :: cs =>
    match (pat ⟨prev, c :: cs⟩).head? with
    | some x =>
        if x.2.rest.length < cs.length + 1 then x.1 :: scanAux pat fuel x.2.prev x.2.rest
        else x.1 :: scanAux pat fuel (some c) cs
    | none => scanAux pat fuel (some c) cs

/-- `pat.finditer(text)`, as the list of extracted group values. -/
def scanPat (pat : Rx α) (text : List Char) : List α :=
  scanAux pat text.length none text

/-- The run date, `dt.date.today()` made explicit. -/
structure Date where
  year : Nat
  month : Nat
deriving DecidableEq

/-- One candidate `(y, m, w)` collected by `detect_period`. -/
structure Cand where
  y : Nat
  m : Nat
  w : Nat
deriving DecidableEq

/-- The validation performed by `add_candidate`: `1 <= m <= 12 and 1900 <= y <= 2100`. -/
def validCand (c : Cand) : Prop :=
  1 ≤ c.m ∧ c.m ≤ 12 ∧ 1900 ≤ c.y ∧ c.y ≤ 2100

instance (c : Cand) : Decidable (validCand c) := by
  unfold validCand; infer_instance

/-- `add_candidate` applied to a batch: keep only valid candidates. -/
def keepValid (l : List Cand) : List Cand := l.filter fun c => decide (validCand c)

/-- `q_to_month = {1: 3, 2: 6, 3: 9, 4: 12}` with `.get(q, 0)`. -/
def qToMonth (q : Nat) : Nat :=
  if q = 1 then 3 else if q = 2 then 6 else if q = 3 then 9 else if q = 4 then 12 else 0

/-- Candidates from `pat_mon_yyyy` (base weight 100). -/
def recMonYyyy (tc : List Char) (bonus : Nat) : List Cand :=
  keepValid ((scanPat patMonYyyy tc).map fun p => ⟨p.1, p.2, 100 + bonus⟩)

/-- Candidates from `pat_yyyy_mon` (base weight 95). -/
def recYyyyMon (tc : List Char) (bonus : Nat) : List Cand :=
  keepValid ((scanPat patYyyyMon tc).map fun p => ⟨p.1, p.2, 95 + bonus⟩)

/-- Candidates from `pat_mon_yy` (base weight 90, year normalized `2000 + YY`). -/
def recMonYy (tc : List Char) (bonus : Nat) : List Cand :=
  keepValid ((scanPat patMonYy tc).map fun p => ⟨2000 + p.1, p.2, 90 + bonus⟩)

/-- Candidates from `pat_dd_mon_yyyy` (base 80, +2 when the day is ≤ 12). -/
def recDdMonYyyy (tc : List Char) (bonus : Nat) : List Cand :=
  keepValid ((scanPat patDdMonYyyy tc).map fun t =>
    ⟨t.2.2, t.2.1, 80 + bonus + if t.1 ≤ 12 then 2 else 0⟩)

/-- Candidates from `pat_mon_dd_yyyy` (base 78, +2 when the day is ≤ 12). -/
def recMonDdYyyy (tc : List Char) (bonus : Nat) : List Cand :=
  keepValid ((scanPat patMonDdYyyy tc).map fun t =>
    ⟨t.2.2, t.2.1, 78 + bonus + if t.1 ≤ 12 then 2 else 0⟩)

/-- Candidates from `pat_ddmonyyyy_contig` (base 75, +2 when the day is ≤ 12). -/
def recDdMonYyyyContig (tc : List Char) (bonus : Nat) : List Cand :=
  keepValid ((scanPat patDdMonYyyyContig tc).map fun t =>
    ⟨t.2.2, t.2.1, 75 + bonus + if t.1 ≤ 12 then 2 else 0⟩)

/-- Candidates from `pat_qn_yyyy` (base 70, quarter mapped by `q_to_month`). -/
def recQnYyyy (tc : List Char) (bonus : Nat) : List Cand :=
  keepValid ((scanPat patQnYyyy tc).map fun p => ⟨p.2, qToMonth p.1, 70 + bonus⟩)

/-- Candidates from `pat_yyyy_qn` (base 68). -/
def recYyyyQn (tc : List Char) (bonus : Nat) : List Cand :=
  keepValid ((scanPat patYyyyQn tc).map fun p => ⟨p.1, qToMonth p.2, 68 + bonus⟩)

/-- Candidates from `pat_nq_yyyy` (base 66). -/
def recNqYyyy (tc : List Char) (bonus : Nat) : List Cand :=
  keepValid ((scanPat patNqYyyy tc).map fun p => ⟨p.2, qToMonth p.1, 66 + bonus⟩)

/-- Candidates from `pat_yyyy_mm` (base 60). -/
def recYyyyMm (tc : List Char) (bonus : Nat) : List Cand :=
  keepValid ((scanPat patYyyyMm tc).map fun p => ⟨p.1, p.2, 60 + bonus⟩)

/-- Candidates from `pat_mm_yyyy` (base 58). -/
def recMmYyyy (tc : List Char) (bonus : Nat) : List Cand :=
  keepValid ((scanPat patMmYyyy tc).map fun p => ⟨p.1, p.2, 58 + bonus⟩)

/-- Candidates from `pat_yyyymm` (base 56). -/
def recYyyymm (tc : List Char) (bonus : Nat) : List Cand :=
  keepValid ((scanPat patYyyymm tc).map fun p => ⟨p.1, p.2, 56 + bonus⟩)

/-- Candidates from `pat_mmyyyy` (base 54). -/
def recMmyyyy (tc : List Char) (bonus : Nat) : List Cand :=
  keepValid ((scanPat patMmyyyy tc).map fun p => ⟨p.1, p.2, 54 + bonus⟩)

/-- Candidates from `pat_dd_mm_yyyy` (base 50, +2 when the day is ≤ 12). -/
def recDdMmYyyy (tc : List Char) (bonus : Nat) : List Cand :=
  keepValid ((scanPat patDdMmYyyy tc).map fun t =>
    ⟨t.2.2, t.2.1, 50 + bonus + if t.1 ≤ 12 then 2 else 0⟩)

/-- Candidates from `pat_yyyy_mm_dd` (base 48, +2 when the day is ≤ 12). -/
def recYyyyMmDd (tc : List Char) (bonus : Nat) : List Cand :=
  keepValid ((scanPat patYyyyMmDd tc).map fun t =>
    ⟨t.2.2, t.2.1, 48 + bonus + if t.1 ≤ 12 then 2 else 0⟩)

/-- Candidates from `pat_ddmmyyyy` (base 46, +2 when the day is ≤ 12). -/
def recDdmmyyyy (tc : List Char) (bonus : Nat) : List Cand :=
  keepValid ((scanPat patDdmmyyyy tc).map fun t =>
    ⟨t.2.2, t.2.1, 46 + bonus + if t.1 ≤ 12 then 2 else 0⟩)

/-- Candidates from `pat_ddmmyy` (base 44, +2 when the day is ≤ 12, year
normalized `2000 + YY`). -/
def recDdmmyy (tc : List Char) (bonus : Nat) : List Cand :=
  keepValid ((scanPat patDdmmyy tc).map fun t =>
    ⟨2000 + t.2.2, t.2.1, 44 + bonus + if t.1 ≤ 12 then 2 else 0⟩)

/-- Candidates from `ISO_RGX` (base 40). -/
def recIso (tc : List Char) (bonus : Nat) : List Cand :=
  keepValid ((scanPat patIso tc).map fun p => ⟨p.1, p.2, 40 + bonus⟩)

/-- The bare-month-name recognizer: for each `MON` word (in source order)
that occurs as a substring of the lower-cased text, a candidate for that
month in the current year with weight `10 + bonus`. -/
def recBareMonth (tc : List Char) (bonus : Nat) (today : Date) : List Cand :=
  keepValid (monthAlts.filterMap fun wn =>
    if isSubstr wn.1 (lowerL tc) then some ⟨today.year, wn.2, 10 + bonus⟩ else none)

/-- All candidates one text contributes, in the source's recognizer order.
The smart-quote fold (`text_clean`) happens here, as in the source. -/
def extractText (text : List Char) (bonus : Nat) (today : Date) : List Cand :=
  let tc := cleanText text
  recMonYyyy tc bonus ++ recYyyyMon tc bonus ++ recMonYy tc bonus ++
  recDdMonYyyy tc bonus ++ recMonDdYyyy tc bonus ++ recDdMonYyyyContig tc bonus ++
  recQnYyyy tc bonus ++ recYyyyQn tc bonus ++ recNqYyyy tc bonus ++
  recYyyyMm tc bonus ++ recMmYyyy tc bonus ++ recYyyymm tc bonus ++
  recMmyyyy tc bonus ++ recDdMmYyyy tc bonus ++ recYyyyMmDd tc bonus ++
  recDdmmyyyy tc bonus ++ recDdmmyy tc bonus ++ recIso tc bonus ++
  recBareMonth tc bonus today

/-- The candidate pool of a message: the subject with bonus 0, then each
attachment name with bonus 5; empty texts are skipped (`if not text: continue`). -/
def extractAll (subject : String) (attNames : List String) (today : Date) : List Cand :=
  ((subject, 0) :: attNames.map fun n => (n, 5)).flatMap fun tb =>
    if tb.1 = "" then [] else extractText tb.1.data tb.2 today

/-- The Python sort key `lambda t: (t[2], t[0], t[1])`, i.e. lexicographic
(weight, year, month), as a Boolean total preorder. -/
def keyLe (a b : Cand) : Bool :=
  decide (a.w < b.w ∨ (a.w = b.w ∧ (a.y < b.y ∨ (a.y = b.y ∧ a.m ≤ b.m))))

/-- Stable insertion into a list sorted by `keyLe`. -/
def pyInsert (c : Cand) : List Cand → List Cand
  | [] => [c]
  | d :: ds => if keyLe c d then c :: d :: ds else d :: pyInsert c ds

/-- `candidates.sort(key=lambda t: (t[2], t[0], t[1]))`.  Python's sort is
stable, but `keyLe` compares the whole triple, so it is antisymmetric and
every sort produces the same list; insertion sort is used because the
kernel can evaluate it. -/
def pySort : List Cand → List Cand
  | [] => []
  | c :: cs => pyInsert c (pySort cs)

/-- The selection-and-clamp stage of `detect_period`: sort the candidates by
`(weight, year, month)`, take the last (the lexicographic maximum), then
apply the recency clamp; no candidates yields `(current year, None)`. -/
def detectFromCands (cands : List Cand) (today : Date) : Nat × Option Nat :=
  match cands with
  | [] => (today.year, none)
  | _ :: _ =>
    let c := (pySort cands).getLastD ⟨0, 0, 0⟩
    if today.year < c.y then (today.year, none)
    else if c.y = today.year ∧ today.month < c.m then (today.year, none)
    else (c.y, some c.m)

/-- `detect_period`: extract `(year, month|None)` from the subject and the
attachment names, with the run date made an explicit argument. -/
def detect_period (subject : String) (attNames : List String) (today : Date) :
    Nat × Option Nat :=
  detectFromCands (extractAll subject attNames today) today

/-- Python `str.strip` (ASCII whitespace) on a character list. -/
def stripL (s : List Char) : List Char :=
  ((s.dropWhile isPySpace).reverse.dropWhile isPySpace).reverse

/-- Python `s.strip()`. -/
def pyStrip (s : String) : String := ⟨stripL s.data⟩

/-- Python `s.lower()` (ASCII, see the header note). -/
def pyLower (s : String) : String := ⟨lowerL s.data⟩

/-- Substring containment on strings, Python `needle in hay`. -/
def isSubstrS (needle hay : String) : Bool := isSubstr needle.data hay.data

/-- `_to_bool`: `str(s).strip().lower() in {"y", "yes", "true", "1"}`. -/
def _to_bool (s : String) : Bool :=
  let t := pyLower (pyStrip s)
  t = "y" || t = "yes" || t = "true" || t = "1"

/-- One row of the routing table, with the fixed column schema
`SenderEmail, GenericSender, SubjectKey, RootPath, Attachment` (the
DataFrame is read with `dtype=str` and `fillna("")`, so every cell is a
string; the column-presence checks of the source are `True` here). -/
structure Row where
  senderEmail : String
  genericSender : String
  subjectKey : String
  rootPath : String
  attachment : String
deriving DecidableEq

/-- `_normalize_sender_key`: `(sender or '').strip().lower()`. -/
def _normalize_sender_key (sender : String) : String := pyLower (pyStrip sender)

/-- Python `s.split(sep)` for a single-character separator. -/
def splitOnChar (sep : Char) : List Char → List (List Char)
  | [] => [[]]
  | c :: cs =>
    let r := splitOnChar sep cs
    if c = sep then [] :: r else (c :: r.headD []) :: r.tail

/-- `_domain_from_sender`: `None` when the normalized key has no `@`,
otherwise the non-empty part after the last `@` (else `None`),
i.e. `key.split('@')[-1]`. -/
def _domain_from_sender (sender : String) : Option String :=
  let key := _normalize_sender_key sender
  if key.data.contains '@' then
    let domain : String := ⟨(splitOnChar '@' key.data).getLastD []⟩
    if domain = "" then none else some domain
  else none

/-- The subject-keyword list of a row: split on commas, keep the stripped,
lower-cased non-empty entries. -/
def subjectKeysOf (s : String) : List String :=
  (splitOnChar ',' s.data).filterMap fun k =>
    if pyStrip ⟨k⟩ = "" then none else some (pyLower (pyStrip ⟨k⟩))

/-- Association-list lookup (first match), the read side of a Python dict. -/
def alLookup (l : List (String × α)) (k : String) : Option α :=
  (l.find? fun p => p.1 = k).map fun p => p.2

/-- Python dict assignment `d[k] = v`: overwrite in place, else append. -/
def alInsert (l : List (String × α)) (k : String) (v : α) : List (String × α) :=
  if l.any fun p => p.1 = k then
    l.map fun p => if p.1 = k then (k, v) else p
  else l ++ [(k, v)]

/-- Python `d.setdefault(k, []).append(v)`. -/
def alAppendAt (l : List (String × List β)) (k : String) (v : β) :
    List (String × List β) :=
  if l.any fun p => p.1 = k then
    l.map fun p => if p.1 = k then (p.1, p.2 ++ [v]) else p
  else l ++ [(k, [v])]

/-- The type of the tier-1 exact index: lower-cased sender → (root, attachmentOnly). -/
abbrev ExactIdx : Type := List (String × String × Bool)

/-- The type of the tier-2 generic index: domain → ordered rules
(keywords, root, attachmentOnly). -/
abbrev GenericIdx : Type := List (String × List (List String × String × Bool))

/-- `_build_route_index`: partition rows into the exact map and the
per-domain generic rule lists, skipping rows with an empty sender or root;
`gflag == 'no'` selects the exact side, anything else the generic side. -/
def _build_route_index (df : List Row) : ExactIdx × GenericIdx :=
  df.foldl
    (fun eg row =>
      let sender := pyStrip row.senderEmail
      let root := pyStrip row.rootPath
      let gflag := pyLower (pyStrip row.genericSender)
      let attach := _to_bool row.attachment
      let subj_keys := subjectKeysOf row.subjectKey
      if sender = "" ∨ root = "" then eg
      else if gflag = "no" then
        (alInsert eg.1 (pyLower sender) (root, attach), eg.2)
      else
        (eg.1, alAppendAt eg.2 ⟨lowerL ((splitOnChar '@' sender.data).getLastD [])⟩
          (subj_keys, root, attach)))
    ([], [])

/-- `add_row(df, sender, root)`: the appended learned row
`[sender, 'no', '', root, 'no']`. -/
def add_row (sender root : String) : Row := ⟨sender, "no", "", root, "no"⟩

/-- The tier-4 loop of `resolve_route`: first domain row whose keyword list
contains the whole subject and whose stripped root is non-empty (rows with a
matching keyword but an empty root are passed over, as in the source). -/
def tier4Scan (cand : List Row) (subject_lc : String) : Option String :=
  match cand with
  | [] => none
  | r :: rest =>
    if (subjectKeysOf r.subjectKey).any fun k => subject_lc = k then
      let root := pyStrip r.rootPath
      if root = "" then tier4Scan rest subject_lc else some root
    else tier4Scan rest subject_lc

/-- Tiers 3 and 4 of `resolve_route`: scan the DataFrame rows whose
normalized sender ends with the domain; prefer a non-generic row (returning
its root and learning an exact rule); otherwise try the whole-subject
keyword scan over the domain rows, learning likewise on a hit. -/
def resolveTier34 (sender subject_lc domain : String) (df : List Row) :
    Option (String × Bool) × List Row :=
  let cand := df.filter fun r =>
    (domain.data.isSuffixOf (pyLower (pyStrip r.senderEmail)).data : Bool)
  match cand with
  | [] => (none, df)
  | _ :: _ =>
    let non_gen := cand.filter fun r => !(_to_bool r.genericSender)
    match non_gen.head? with
    | some r0 =>
      let root := pyStrip r0.rootPath
      if root = "" then (none, df)
      else (some (root, false), df ++ [add_row sender root])
    | none =>
      match tier4Scan cand subject_lc with
      | some root => (some (root, false), df ++ [add_row sender root])
      | none => (none, df)

/-- `resolve_route(sender, subject, df, exact, generic)`: the tiered lookup.
The DataFrame is the only mutable state the source touches, so the
translation returns the (possibly extended) row list next to the result;
`exact` and `generic` are only ever read by the source. -/
def resolve_route (sender subject : String) (df : List Row)
    (exact : ExactIdx) (generic : GenericIdx) :
    Option (String × Bool) × List Row :=
  let key := _normalize_sender_key sender
  match alLookup exact key with
  | some v => (some v, df)
  | none =>
    let subject_lc := pyLower (pyStrip subject)
    let domain := (_domain_from_sender sender).getD key
    if domain = "" then (none, df)
    else
      let tier2 : Option (List String × String × Bool) :=
        match alLookup generic domain with
        | some entries =>
            entries.find? fun e => e.1.any fun k => !(k = "") && isSubstrS k subject_lc
        | none => none
      match tier2 with
      | some e => (some (e.2.1, e.2.2), df)
      | none => resolveTier34 sender subject_lc domain df

/-- `DEFAULT_SAVE_PATH` from the user configuration block. -/
def DEFAULT_SAVE_PATH : String := "\\\\share\\DefaultArchive"

/-- The Outlook category configured for saved messages. -/
def CAT_SAVED : String := "Saved"

/-- The Outlook category configured for messages routed to the default root. -/
def CAT_DEFAULT : String := "Not Saved"

/-- The Outlook category configured for skipped messages. -/
def CAT_SKIPPED : String := "Skipped"

/-- The per-message planning step of `archive_window`: from the route
decision and the attachment count, the destination root, the action
(`"message"`, `"attachments"` or `"skip"`) and the planned category. -/
def planMessage (route : Option (String × Bool)) (attCount : Nat) :
    String × String × String :=
  let rac :=
    match route with
    | none => (DEFAULT_SAVE_PATH, false, CAT_DEFAULT)
    | some (root, attach_only) =>
        (root, attach_only,
          if attach_only then (if 0 < attCount then CAT_SAVED else CAT_SKIPPED)
          else CAT_SAVED)
  let action :=
    if rac.2.1 then (if 0 < attCount then "attachments" else "skip") else "message"
  (rac.1, action, rac.2.2)

theorem keyLe_refl (c : Cand) : keyLe c c = true := by
  simp [keyLe]

theorem keyLe_total (a b : Cand) : keyLe a b = true ∨ keyLe b a = true := by
  simp only [keyLe, decide_eq_true_iff]
  omega

theorem keyLe_trans {a b c : Cand} (h1 : keyLe a b = true) (h2 : keyLe b c = true) :
    keyLe a c = true := by
  simp only [keyLe, decide_eq_true_iff] at h1 h2 ⊢
  omega

theorem keyLe_antisymm {a b : Cand} (h1 : keyLe a b = true) (h2 : keyLe b a = true) :
    a = b := by
  cases a; cases b
  simp only [keyLe, decide_eq_true_iff] at h1 h2
  simp only [Cand.mk.injEq]
  omega

theorem keyLe_w {a b : Cand} (h : keyLe a b = true) : a.w ≤ b.w := by
  simp only [keyLe, decide_eq_true_iff] at h
  omega

theorem mem_pyInsert {x c : Cand} : ∀ {l : List Cand}, x ∈ pyInsert c l ↔ x = c ∨ x ∈ l := by
  intro l
  induction l with
  | nil => simp [pyInsert]
  | cons d ds ih =>
    simp only [pyInsert]
    by_cases h : keyLe c d = true
    · rw [if_pos h]
      simp [List.mem_cons]
    · rw [if_neg h]
      simp only [List.mem_cons, ih]
      tauto

theorem pyInsert_ne_nil (c : Cand) (l : List Cand) : pyInsert c l ≠ [] := by
  cases l with
  | nil => simp [pyInsert]
  | cons d ds =>
    simp only [pyInsert]
    by_cases h : keyLe c d = true
    · rw [if_pos h]; simp
    · rw [if_neg h]; simp

theorem mem_pySort {x : Cand} : ∀ {l : List Cand}, x ∈ pySort l ↔ x ∈ l := by
  intro l
  induction l with
  | nil => simp [pySort]
  | cons c cs ih => simp [pySort, mem_pyInsert, ih]

theorem pySort_ne_nil {l : List Cand} (h : l ≠ []) : pySort l ≠ [] := by
  cases l with
  | nil => exact absurd rfl h
  | cons c cs => exact pyInsert_ne_nil c (pySort cs)

theorem pairwise_pyInsert {c : Cand} :
    ∀ {l : List Cand}, l.Pairwise (fun a b => keyLe a b = true) →
      (pyInsert c l).Pairwise (fun a b => keyLe a b = true) := by
  intro l
  induction l with
  | nil => simp [pyInsert]
  | cons d ds ih =>
    intro hp
    rw [List.pairwise_cons] at hp
    simp only [pyInsert]
    by_cases h : keyLe c d = true
    · rw [if_pos h, List.pairwise_cons]
      refine ⟨?_, List.pairwise_cons.mpr hp⟩
      intro x hx
      rcases List.mem_cons.mp hx with rfl | hx
      · exact h
      · exact keyLe_trans h (hp.1 x hx)
    · rw [if_neg h, List.pairwise_cons]
      have hdc : keyLe d c = true := (keyLe_total c d).resolve_left h
      refine ⟨?_, ih hp.2⟩
      intro x hx
      rcases mem_pyInsert.mp hx with rfl | hx
      · exact hdc
      · exact hp.1 x hx

theorem pairwise_pySort (l : List Cand) :
    (pySort l).Pairwise (fun a b => keyLe a b = true) := by
  induction l with
  | nil => simp [pySort]
  | cons c cs ih => exact pairwise_pyInsert ih

theorem getLastD_mem {l : List Cand} (h : l ≠ []) (d : Cand) : l.getLastD d ∈ l := by
  induction l generalizing d with
  | nil => exact absurd rfl h
  | cons a t ih =>
    rw [List.getLastD_cons]
    cases t with
    | nil => simp
    | cons b u => exact List.mem_cons_of_mem a (ih (by simp) a)

theorem getLastD_irrel {l : List Cand} (h : l ≠ []) (d d' : Cand) :
    l.getLastD d = l.getLastD d' := by
  cases l with
  | nil => exact absurd rfl h
  | cons a t => rw [List.getLastD_cons, List.getLastD_cons]

theorem pairwise_keyLe_getLastD :
    ∀ (s : List Cand) (d : Cand), s.Pairwise (fun a b => keyLe a b = true) →
      ∀ x ∈ s, keyLe x (s.getLastD d) = true := by
  intro s
  induction s with
  | nil => intro _ _ x hx; exact absurd hx (List.not_mem_nil x)
  | cons a t ih =>
    intro d hp x hx
    rw [List.pairwise_cons] at hp
    rw [List.getLastD_cons]
    cases t with
    | nil =>
      rcases List.mem_cons.mp hx with rfl | hx
      · exact keyLe_refl x
      · exact absurd hx (List.not_mem_nil x)
    | cons b u =>
      rcases List.mem_cons.mp hx with rfl | hx
      · exact hp.1 _ (getLastD_mem (by simp) x)
      · exact ih a hp.2 x hx

/-- The element `candidates[-1]` after the sort: it is one of the
candidates and is `keyLe`-maximal among them. -/
theorem pySort_getLastD_max {l : List Cand} (h : l ≠ []) (d : Cand) :
    (pySort l).getLastD d ∈ l ∧ ∀ x ∈ l, keyLe x ((pySort l).getLastD d) = true := by
  constructor
  · exact mem_pySort.mp (getLastD_mem (pySort_ne_nil h) d)
  · intro x hx
    exact pairwise_keyLe_getLastD (pySort l) d (pairwise_pySort l) x (mem_pySort.mpr hx)

theorem mem_keepValid {c : Cand} {l : List Cand} (h : c ∈ keepValid l) :
    c ∈ l ∧ validCand c := by
  have := List.mem_filter.mp h
  exact ⟨this.1, of_decide_eq_true this.2⟩

theorem keepValid_eq_self {l : List Cand} (h : ∀ c ∈ l, validCand c) :
    keepValid l = l := by
  apply List.filter_eq_self.mpr
  intro c hc
  exact decide_eq_true (h c hc)

theorem splitOnChar_ne_nil (sep : Char) (s : List Char) : splitOnChar sep s ≠ [] := by
  cases s with
  | nil => simp [splitOnChar]
  | cons c cs =>
    simp only [splitOnChar]
    by_cases h : c = sep
    · rw [if_pos h]; simp
    · rw [if_neg h]; simp

theorem splitOnChar_singleton {sep : Char} :
    ∀ {s g : List Char}, splitOnChar sep s = [g] → g = s := by
  intro s
  induction s with
  | nil => intro g h; simpa [splitOnChar] using h.symm
  | cons c cs ih =>
    intro g h
    rcases hcs : splitOnChar sep cs with _ | ⟨g0, gs⟩
    · exact absurd hcs (splitOnChar_ne_nil sep cs)
    · simp only [splitOnChar, hcs] at h
      by_cases hc : c = sep
      · rw [if_pos hc] at h
        simp at h
      · rw [if_neg hc] at h
        simp only [List.headD_cons, List.tail_cons, List.cons.injEq] at h
        obtain ⟨rfl, rfl⟩ := h.symm.imp Eq.symm Eq.symm
        have := ih hcs
        simp [this]

theorem splitOnChar_getLastD_suffix (sep : Char) :
    ∀ (s : List Char), (splitOnChar sep s).getLastD [] <:+ s := by
  intro s
  induction s with
  | nil => simp [splitOnChar]
  | cons c cs ih =>
    rcases hcs : splitOnChar sep cs with _ | ⟨g, gs⟩
    · exact absurd hcs (splitOnChar_ne_nil sep cs)
    · rw [hcs] at ih
      simp only [splitOnChar, hcs]
      by_cases hc : c = sep
      · rw [if_pos hc, List.getLastD_cons]
        calc (g :: gs).getLastD [] <:+ cs := ih
          _ <:+ c :: cs := List.suffix_cons c cs
      · rw [if_neg hc]
        simp only [List.headD_cons, List.tail_cons]
        cases gs with
        | nil =>
          have hg : g = cs := splitOnChar_singleton hcs
          simp [hg]
        | cons g1 gs1 =>
          rw [List.getLastD_cons]
          have h1 : (g1 :: gs1).getLastD (c :: g) = (g1 :: gs1).getLastD g := by
            rw [List.getLastD_cons, List.getLastD_cons]
          rw [h1]
          calc (g1 :: gs1).getLastD g <:+ cs := by
                rw [List.getLastD_cons] at ih
                exact ih
            _ <:+ c :: cs := List.suffix_cons c cs

theorem mem_of_head? {α : Type} {l : List (α × PState)} {x : α × PState}
    (h : l.head? = some x) : x ∈ l := by
  cases l with
  | nil => simp at h
  | cons a t =>
    simp only [List.head?_cons, Option.some.injEq] at h
    exact h ▸ List.mem_cons_self a t

/-- Every value produced by a full scan comes from one anchored match of the
pattern at some state. -/
theorem scanPat_sound {α : Type} {pat : Rx α} :
    ∀ {fuel : Nat} {prev : Option Char} {s : List Char} {a : α},
      a ∈ scanAux pat fuel prev s → ∃ st st2, (a, st2) ∈ pat st := by
  intro fuel
  induction fuel with
  | zero => intro _ _ _ h; simp [scanAux] at h
  | succ n ih =>
    intro prev s a h
    cases s with
    | nil => simp [scanAux] at h
    | cons c cs =>
      simp only [scanAux] at h
      split at h
      next x heq =>
        have hmem : a = x.1 ∨
            (a ∈ scanAux pat n x.2.prev x.2.rest ∨ a ∈ scanAux pat n (some c) cs) := by
          split at h
          · rcases List.mem_cons.mp h with rfl | h
            · exact Or.inl rfl
            · exact Or.inr (Or.inl h)
          · rcases List.mem_cons.mp h with rfl | h
            · exact Or.inl rfl
            · exact Or.inr (Or.inr h)
        rcases hmem with rfl | h | h
        · exact ⟨⟨prev, c :: cs⟩, x.2, mem_of_head? heq⟩
        · exact ih h
        · exact ih h
      next heq => exact ih h

theorem rxCh_sound {f : Char → Bool} {st : PState} {c : Char} {st2 : PState}
    (h : (c, st2) ∈ rxCh f st) : f c = true := by
  rcases st with ⟨prev, _ | ⟨d, ds⟩⟩
  · simp [rxCh] at h
  · by_cases hf : f d = true
    · simp only [rxCh, hf, if_true, List.mem_singleton, Prod.mk.injEq] at h
      exact h.1 ▸ hf
    · simp [rxCh, hf] at h

theorem rxDigit_le {st : PState} {d : Nat} {st2 : PState}
    (h : (d, st2) ∈ rxDigit st) : d ≤ 9 := by
  simp only [rxDigit, Rx.bind_apply, List.mem_flatMap, Rx.pure_apply,
    List.mem_singleton, Prod.mk.injEq] at h
  obtain ⟨⟨c, st1⟩, hc, hval, hst⟩ := h
  have hf := rxCh_sound hc
  simp only [isDigitC, Bool.and_eq_true, decide_eq_true_iff] at hf
  dsimp only at hval
  omega

theorem rxMonWord_bounds {st : PState} {n : Nat} {st2 : PState}
    (h : (n, st2) ∈ rxMonWord st) : 1 ≤ n ∧ n ≤ 12 := by
  simp only [rxMonWord, List.mem_flatMap] at h
  obtain ⟨wn, hwn, hm⟩ := h
  simp only [Rx.bind_apply, List.mem_flatMap, Rx.pure_apply, List.mem_singleton] at hm
  obtain ⟨x, _, heq⟩ := hm
  have : (1 ≤ wn.2 ∧ wn.2 ≤ 12) := by
    have : ∀ p ∈ monthAlts, 1 ≤ p.2 ∧ p.2 ≤ 12 := by decide
    exact this wn hwn
  cases heq
  exact this

theorem rxYear4_bounds {st : PState} {y : Nat} {st2 : PState}
    (h : (y, st2) ∈ rxYear4 st) : 1900 ≤ y ∧ y ≤ 2099 := by
  simp only [rxYear4, Rx.bind_apply, List.mem_flatMap, Rx.pure_apply,
    List.mem_singleton] at h
  obtain ⟨⟨hi, st1⟩, hhi, ⟨⟨a, sta⟩, ha, ⟨⟨b, stb⟩, hb, heq⟩⟩⟩ := h
  have hhi19 : hi = 19 ∨ hi = 20 := by
    simp only [rxOr, List.mem_append, Rx.bind_apply, List.mem_flatMap,
      Rx.pure_apply, List.mem_singleton] at hhi
    rcases hhi with ⟨x, _, heq2⟩ | ⟨x, _, heq2⟩
    · cases heq2; exact Or.inl rfl
    · cases heq2; exact Or.inr rfl
  have ha9 := rxDigit_le ha
  have hb9 := rxDigit_le hb
  cases heq
  rcases hhi19 with rfl | rfl <;> omega

/-- Every group pair `(y, m)` extracted by `pat_mon_yyyy` satisfies the
`add_candidate` bounds. -/
theorem patMonYyyy_bounds {st : PState} {p : Nat × Nat} {st2 : PState}
    (h : (p, st2) ∈ patMonYyyy st) :
    1 ≤ p.2 ∧ p.2 ≤ 12 ∧ 1900 ≤ p.1 ∧ p.1 ≤ 2099 := by
  simp only [patMonYyyy, Rx.bind_apply, List.mem_flatMap, Rx.pure_apply,
    List.mem_singleton] at h
  obtain ⟨x1, _, ⟨m, stm⟩, hm, x3, _, x4, _, x5, _, ⟨y, sty⟩, hy, x7, _, heq⟩ := h
  have hmb := rxMonWord_bounds hm
  have hyb := rxYear4_bounds hy
  cases heq
  exact ⟨hmb.1, hmb.2, hyb.1, hyb.2⟩

theorem recMonYyyy_w {tc : List Char} {b : Nat} {c : Cand}
    (h : c ∈ recMonYyyy tc b) : c.w = 100 + b := by
  simp only [recMonYyyy] at h
  obtain ⟨hm, _⟩ := mem_keepValid h
  obtain ⟨p, _, rfl⟩ := List.mem_map.mp hm
  rfl

theorem recYyyyMon_w {tc : List Char} {b : Nat} {c : Cand}
    (h : c ∈ recYyyyMon tc b) : c.w = 95 + b := by
  simp only [recYyyyMon] at h
  obtain ⟨hm, _⟩ := mem_keepValid h
  obtain ⟨p, _, rfl⟩ := List.mem_map.mp hm
  rfl

theorem recMonYy_w {tc : List Char} {b : Nat} {c : Cand}
    (h : c ∈ recMonYy tc b) : c.w = 90 + b := by
  simp only [recMonYy] at h
  obtain ⟨hm, _⟩ := mem_keepValid h
  obtain ⟨p, _, rfl⟩ := List.mem_map.mp hm
  rfl

theorem recQnYyyy_w {tc : List Char} {b : Nat} {c : Cand}
    (h : c ∈ recQnYyyy tc b) : c.w = 70 + b := by
  simp only [recQnYyyy] at h
  obtain ⟨hm, _⟩ := mem_keepValid h
  obtain ⟨p, _, rfl⟩ := List.mem_map.mp hm
  rfl

theorem recYyyyQn_w {tc : List Char} {b : Nat} {c : Cand}
    (h : c ∈ recYyyyQn tc b) : c.w = 68 + b := by
  simp only [recYyyyQn] at h
  obtain ⟨hm, _⟩ := mem_keepValid h
  obtain ⟨p, _, rfl⟩ := List.mem_map.mp hm
  rfl

theorem recNqYyyy_w {tc : List Char} {b : Nat} {c : Cand}
    (h : c ∈ recNqYyyy tc b) : c.w = 66 + b := by
  simp only [recNqYyyy] at h
  obtain ⟨hm, _⟩ := mem_keepValid h
  obtain ⟨p, _, rfl⟩ := List.mem_map.mp hm
  rfl

theorem recYyyyMm_w {tc : List Char} {b : Nat} {c : Cand}
    (h : c ∈ recYyyyMm tc b) : c.w = 60 + b := by
  simp only [recYyyyMm] at h
  obtain ⟨hm, _⟩ := mem_keepValid h
  obtain ⟨p, _, rfl⟩ := List.mem_map.mp hm
  rfl

theorem recMmYyyy_w {tc : List Char} {b : Nat} {c : Cand}
    (h : c ∈ recMmYyyy tc b) : c.w = 58 + b := by
  simp only [recMmYyyy] at h
  obtain ⟨hm, _⟩ := mem_keepValid h
  obtain ⟨p, _, rfl⟩ := List.mem_map.mp hm
  rfl

theorem recYyyymm_w {tc : List Char} {b : Nat} {c : Cand}
    (h : c ∈ recYyyymm tc b) : c.w = 56 + b := by
  simp only [recYyyymm] at h
  obtain ⟨hm, _⟩ := mem_keepValid h
  obtain ⟨p, _, rfl⟩ := List.mem_map.mp hm
  rfl

theorem recMmyyyy_w {tc : List Char} {b : Nat} {c : Cand}
    (h : c ∈ recMmyyyy tc b) : c.w = 54 + b := by
  simp only [recMmyyyy] at h
  obtain ⟨hm, _⟩ := mem_keepValid h
  obtain ⟨p, _, rfl⟩ := List.mem_map.mp hm
  rfl

theorem recIso_w {tc : List Char} {b : Nat} {c : Cand}
    (h : c ∈ recIso tc b) : c.w = 40 + b := by
  simp only [recIso] at h
  obtain ⟨hm, _⟩ := mem_keepValid h
  obtain ⟨p, _, rfl⟩ := List.mem_map.mp hm
  rfl

theorem recDdMonYyyy_w {tc : List Char} {b : Nat} {c : Cand}
    (h : c ∈ recDdMonYyyy tc b) : c.w ≤ 80 + b + 2 := by
  simp only [recDdMonYyyy] at h
  obtain ⟨hm, _⟩ := mem_keepValid h
  obtain ⟨p, _, rfl⟩ := List.mem_map.mp hm
  dsimp only
  split <;> omega

theorem recMonDdYyyy_w {tc : List Char} {b : Nat} {c : Cand}
    (h : c ∈ recMonDdYyyy tc b) : c.w ≤ 78 + b + 2 := by
  simp only [recMonDdYyyy] at h
  obtain ⟨hm, _⟩ := mem_keepValid h
  obtain ⟨p, _, rfl⟩ := List.mem_map.mp hm
  dsimp only
  split <;> omega

theorem recDdMonYyyyContig_w {tc : List Char} {b : Nat} {c : Cand}
    (h : c ∈ recDdMonYyyyContig tc b) : c.w ≤ 75 + b + 2 := by
  simp only [recDdMonYyyyContig] at h
  obtain ⟨hm, _⟩ := mem_keepValid h
  obtain ⟨p, _, rfl⟩ := List.mem_map.mp hm
  dsimp only
  split <;> omega

theorem recDdMmYyyy_w {tc : List Char} {b : Nat} {c : Cand}
    (h : c ∈ recDdMmYyyy tc b) : c.w ≤ 50 + b + 2 := by
  simp only [recDdMmYyyy] at h
  obtain ⟨hm, _⟩ := mem_keepValid h
  obtain ⟨p, _, rfl⟩ := List.mem_map.mp hm
  dsimp only
  split <;> omega

theorem recYyyyMmDd_w {tc : List Char} {b : Nat} {c : Cand}
    (h : c ∈ recYyyyMmDd tc b) : c.w ≤ 48 + b + 2 := by
  simp only [recYyyyMmDd] at h
  obtain ⟨hm, _⟩ := mem_keepValid h
  obtain ⟨p, _, rfl⟩ := List.mem_map.mp hm
  dsimp only
  split <;> omega

theorem recDdmmyyyy_w {tc : List Char} {b : Nat} {c : Cand}
    (h : c ∈ recDdmmyyyy tc b) : c.w ≤ 46 + b + 2 := by
  simp only [recDdmmyyyy] at h
  obtain ⟨hm, _⟩ := mem_keepValid h
  obtain ⟨p, _, rfl⟩ := List.mem_map.mp hm
  dsimp only
  split <;> omega

theorem recDdmmyy_w {tc : List Char} {b : Nat} {c : Cand}
    (h : c ∈ recDdmmyy tc b) : c.w ≤ 44 + b + 2 := by
  simp only [recDdmmyy] at h
  obtain ⟨hm, _⟩ := mem_keepValid h
  obtain ⟨p, _, rfl⟩ := List.mem_map.mp hm
  dsimp only
  split <;> omega

/-- Every bare-month candidate carries the current year and weight `10 + bonus`. -/
theorem recBareMonth_spec {tc : List Char} {b : Nat} {today : Date} {c : Cand}
    (h : c ∈ recBareMonth tc b today) : c.y = today.year ∧ c.w = 10 + b := by
  simp only [recBareMonth] at h
  obtain ⟨hm, _⟩ := mem_keepValid h
  obtain ⟨wn, _, hf⟩ := List.mem_filterMap.mp hm
  split at hf
  · cases hf
    exact ⟨rfl, rfl⟩
  · exact absurd hf (by simp)

/-- Every candidate ever collected passes the `add_candidate` validation. -/
theorem extractAll_valid {subject : String} {atts : List String} {today : Date}
    {c : Cand} (h : c ∈ extractAll subject atts today) : validCand c := by
  simp only [extractAll, List.mem_flatMap] at h
  obtain ⟨tb, _, h⟩ := h
  split at h
  · exact absurd h (List.not_mem_nil c)
  · simp only [extractText, List.mem_append] at h
    rcases h with ((((((((((((((((((h | h) | h) | h) | h) | h) | h) | h) | h) | h) |
      h) | h) | h) | h) | h) | h) | h) | h) | h)
    all_goals
      simp only [recMonYyyy, recYyyyMon, recMonYy, recDdMonYyyy, recMonDdYyyy,
        recDdMonYyyyContig, recQnYyyy, recYyyyQn, recNqYyyy, recYyyyMm, recMmYyyy,
        recYyyymm, recMmyyyy, recDdMmYyyy, recYyyyMmDd, recDdmmyyyy, recDdmmyy,
        recIso, recBareMonth] at h
    all_goals exact (mem_keepValid h).2

theorem detectFromCands_eq (cands : List Cand) (today : Date) (h : cands ≠ []) :
    detectFromCands cands today =
      (if today.year < ((pySort cands).getLastD ⟨0, 0, 0⟩).y then (today.year, none)
       else if ((pySort cands).getLastD ⟨0, 0, 0⟩).y = today.year ∧
           today.month < ((pySort cands).getLastD ⟨0, 0, 0⟩).m then (today.year, none)
       else (((pySort cands).getLastD ⟨0, 0, 0⟩).y,
         some ((pySort cands).getLastD ⟨0, 0, 0⟩).m)) := by
  obtain ⟨a, t, rfl⟩ := List.exists_cons_of_ne_nil h
  rfl

/-- The recency-clamp condition of `detect_period`, stated of the selected
candidate. -/
def futureCand (c : Cand) (today : Date) : Prop :=
  today.year < c.y ∨ (c.y = today.year ∧ today.month < c.m)

instance (c : Cand) (today : Date) : Decidable (futureCand c today) := by
  unfold futureCand; infer_instance

/-- C7.  The ArchivePlanner mapping from (route decision, attachment count)
to (destination root, action, category) is a total Lean function and follows
the four-case table: no route → whole message to the default root with the
default category; attachmentOnly=false → whole message, saved category;
attachmentOnly=true with attachments → attachments only, saved category;
attachmentOnly=true without attachments → skip, skipped category. -/
theorem archive_planner_case_table :
    (∀ n : Nat, planMessage none n = (DEFAULT_SAVE_PATH, "message", CAT_DEFAULT)) ∧
    (∀ (root : String) (n : Nat),
      planMessage (some (root, false)) n = (root, "message", CAT_SAVED)) ∧
    (∀ (root : String) (n : Nat), 0 < n →
      planMessage (some (root, true)) n = (root, "attachments", CAT_SAVED)) ∧
    (∀ root : String, planMessage (some (root, true)) 0 = (root, "skip", CAT_SKIPPED)) := by
  refine ⟨fun n => rfl, fun root n => rfl, fun root n hn => ?_, fun root => rfl⟩
  simp [planMessage, hn]

/-- Witness for C7 at concrete inputs. -/
theorem archive_planner_case_table_witness :
    0 < 1 ∧ planMessage (some ("R", true)) 1 = ("R", "attachments", CAT_SAVED) :=
  ⟨by decide, archive_planner_case_table.2.2.1 "R" 1 (by decide)⟩

/-- C5.  The selection stage of `detect_period` picks a candidate that is
maximal for the lexicographic key (weight, year, month) — i.e. maximum
weight, ties broken by larger year and then larger month — and on the
two equal-weight candidates (2024, 3) and (2025, 1) it picks (2025, 1),
which the resolver then returns. -/
theorem period_selection_max :
    (∀ cands : List Cand, cands ≠ [] →
      (pySort cands).getLastD ⟨0, 0, 0⟩ ∈ cands ∧
        ∀ c ∈ cands, keyLe c ((pySort cands).getLastD ⟨0, 0, 0⟩) = true) ∧
    (∀ w : Nat,
      (pySort [⟨2024, 3, w⟩, ⟨2025, 1, w⟩]).getLastD ⟨0, 0, 0⟩ = ⟨2025, 1, w⟩) ∧
    detectFromCands [⟨2024, 3, 60⟩, ⟨2025, 1, 60⟩] ⟨2025, 10⟩ = (2025, some 1) := by
  refine ⟨fun cands h => pySort_getLastD_max h _, fun w => ?_, by decide⟩
  have hk : keyLe ⟨2024, 3, w⟩ ⟨2025, 1, w⟩ = true := by
    rw [keyLe, decide_eq_true_iff]
    show w < w ∨ (w = w ∧ (2024 < 2025 ∨ (2024 = 2025 ∧ 3 ≤ 1)))
    omega
  show (pyInsert ⟨2024, 3, w⟩ (pyInsert ⟨2025, 1, w⟩ (pySort []))).getLastD ⟨0, 0, 0⟩ =
    ⟨2025, 1, w⟩
  simp only [pySort, pyInsert, if_pos hk]
  rfl

/-- Witness for C5 at a concrete candidate list. -/
theorem period_selection_max_witness :
    ([⟨2024, 3, 60⟩, ⟨2025, 1, 60⟩] : List Cand) ≠ [] ∧
    (pySort [⟨2024, 3, 60⟩, ⟨2025, 1, 60⟩]).getLastD ⟨0, 0, 0⟩ ∈
      ([⟨2024, 3, 60⟩, ⟨2025, 1, 60⟩] : List Cand) :=
  ⟨by decide, (period_selection_max.1 [⟨2024, 3, 60⟩, ⟨2025, 1, 60⟩] (by decide)).1⟩

/-- C4.  `detect_period` returns (current year, month absent) exactly when
no candidate was extracted or the selected candidate lies in the future;
in every other case it returns the selected candidate's year and month,
with the month present. -/
theorem period_default_exactly (subject : String) (atts : List String) (today : Date) :
    (detect_period subject atts today = (today.year, none) ↔
      (extractAll subject atts today = [] ∨
        futureCand ((pySort (extractAll subject atts today)).getLastD ⟨0, 0, 0⟩) today)) ∧
    (extractAll subject atts today ≠ [] →
      ¬ futureCand ((pySort (extractAll subject atts today)).getLastD ⟨0, 0, 0⟩) today →
      detect_period subject atts today =
        (((pySort (extractAll subject atts today)).getLastD ⟨0, 0, 0⟩).y,
          some ((pySort (extractAll subject atts today)).getLastD ⟨0, 0, 0⟩).m)) := by
  by_cases hc : extractAll subject atts today = []
  · constructor
    · rw [show detect_period subject atts today = (today.year, none) from by
        simp [detect_period, hc, detectFromCands]]
      simp [hc]
    · intro h; exact absurd hc h
  · have heq := detectFromCands_eq (extractAll subject atts today) today hc
    have hdp : detect_period subject atts today =
        detectFromCands (extractAll subject atts today) today := rfl
    set c := (pySort (extractAll subject atts today)).getLastD ⟨0, 0, 0⟩ with hcdef
    by_cases hf : futureCand c today
    · constructor
      · rw [hdp, heq]
        rcases hf with hf1 | hf2
        · rw [if_pos hf1]
          simp [hc, futureCand, hf1]
        · by_cases hf1 : today.year < c.y
          · rw [if_pos hf1]
            simp [hc, futureCand, hf1]
          · rw [if_neg hf1, if_pos hf2]
            simp [hc]
            exact Or.inr hf2
      · intro _ hnf; exact absurd hf hnf
    · have hf1 : ¬ today.year < c.y := fun h => hf (Or.inl h)
      have hf2 : ¬ (c.y = today.year ∧ today.month < c.m) := fun h => hf (Or.inr h)
      constructor
      · rw [hdp, heq, if_neg hf1, if_neg hf2]
        simp only [Prod.mk.injEq]
        constructor
        · rintro ⟨_, h⟩; cases h
        · rintro (h | h)
          · exact absurd h hc
          · exact absurd h hf
      · intro _ _
        rw [hdp, heq, if_neg hf1, if_neg hf2]

/-- Witness for C4's conditional part at a concrete input. -/
theorem period_default_exactly_witness :
    extractAll "August 2024" [] ⟨2025, 10⟩ ≠ [] ∧
    detect_period "August 2024" [] ⟨2025, 10⟩ = (2024, some 8) := by
  refine ⟨by decide, ?_⟩
  have h := (period_default_exactly "August 2024" [] ⟨2025, 10⟩).2 (by decide) (by decide)
  rw [h]
  decide

/-- C8.  Provided the run date's year is itself within [1900, 2100], every
period `detect_period` returns has its year in [1900, 2100] and, when a
month is present, the month in [1, 12]; out-of-range candidates are dropped
by the `add_candidate` validation during extraction. -/
theorem period_invariant (subject : String) (atts : List String) (today : Date)
    (h1 : 1900 ≤ today.year) (h2 : today.year ≤ 2100) :
    1900 ≤ (detect_period subject atts today).1 ∧
    (detect_period subject atts today).1 ≤ 2100 ∧
    ∀ m, (detect_period subject atts today).2 = some m → 1 ≤ m ∧ m ≤ 12 := by
  by_cases hc : extractAll subject atts today = []
  · have : detect_period subject atts today = (today.year, none) := by
      simp [detect_period, hc, detectFromCands]
    rw [this]
    exact ⟨h1, h2, fun m hm => by simp at hm⟩
  · have heq := detectFromCands_eq (extractAll subject atts today) today hc
    have hdp : detect_period subject atts today =
        detectFromCands (extractAll subject atts today) today := rfl
    set c := (pySort (extractAll subject atts today)).getLastD ⟨0, 0, 0⟩ with hcdef
    have hcmem : c ∈ extractAll subject atts today := (pySort_getLastD_max hc _).1
    have hcv : validCand c := extractAll_valid hcmem
    obtain ⟨hm1, hm12, hy1, hy2⟩ := hcv
    rw [hdp, heq]
    by_cases hf1 : today.year < c.y
    · rw [if_pos hf1]
      exact ⟨h1, h2, fun m hm => by simp at hm⟩
    · rw [if_neg hf1]
      by_cases hf2 : c.y = today.year ∧ today.month < c.m
      · rw [if_pos hf2]
        exact ⟨h1, h2, fun m hm => by simp at hm⟩
      · rw [if_neg hf2]
        refine ⟨hy1, hy2, fun m hm => ?_⟩
        simp only [Option.some.injEq] at hm
        exact hm ▸ ⟨hm1, hm12⟩

/-- Witness for C8 at a concrete input. -/
theorem period_invariant_witness :
    (1900 ≤ 2025 ∧ 2025 ≤ 2100) ∧
    (1900 ≤ (detect_period "Q3 2024 NAV" [] ⟨2025, 10⟩).1 ∧
      (detect_period "Q3 2024 NAV" [] ⟨2025, 10⟩).1 ≤ 2100 ∧
      ∀ m, (detect_period "Q3 2024 NAV" [] ⟨2025, 10⟩).2 = some m → 1 ≤ m ∧ m ≤ 12) :=
  ⟨by decide,
    period_invariant "Q3 2024 NAV" [] ⟨2025, 10⟩ (by decide) (by decide)⟩

theorem resolveTier34_frame (sender subject_lc domain : String) (df : List Row) :
    (resolveTier34 sender subject_lc domain df).2 = df ∨
    ∃ root, (resolveTier34 sender subject_lc domain df).1 = some (root, false) ∧
      (resolveTier34 sender subject_lc domain df).2 = df ++ [add_row sender root] := by
  rcases hcand : List.filter
      (fun r => domain.data.isSuffixOf (pyLower (pyStrip r.senderEmail)).data) df
    with _ | ⟨r, rs⟩
  · left
    simp only [resolveTier34, hcand]
  · rcases hng : (List.filter (fun r => !_to_bool r.genericSender) (r :: rs)).head?
      with _ | r0
    · rcases ht4 : tier4Scan (r :: rs) subject_lc with _ | root
      · left
        simp only [resolveTier34, hcand, hng, ht4]
      · right
        exact ⟨root, by simp only [resolveTier34, hcand, hng, ht4],
          by simp only [resolveTier34, hcand, hng, ht4]⟩
    · by_cases hroot : pyStrip r0.rootPath = ""
      · left
        simp only [resolveTier34, hcand, hng, if_pos hroot]
      · right
        exact ⟨pyStrip r0.rootPath,
          by simp only [resolveTier34, hcand, hng, if_neg hroot],
          by simp only [resolveTier34, hcand, hng, if_neg hroot]⟩

/-- C10.  One `resolve_route` call either leaves the rule table unchanged or
appends exactly the one learned row `[sender, 'no', '', root, 'no']` (and
then its result is that root with attachmentOnly = false); the exact and
generic indexes are read-only inputs of the source function, and a tier-1
hit returns the indexed value with the table untouched. -/
theorem resolve_route_frame (sender subject : String) (df : List Row)
    (exact : ExactIdx) (generic : GenericIdx) :
    ((resolve_route sender subject df exact generic).2 = df ∨
      ∃ root, (resolve_route sender subject df exact generic).1 = some (root, false) ∧
        (resolve_route sender subject df exact generic).2 = df ++ [add_row sender root]) ∧
    (∀ v, alLookup exact (_normalize_sender_key sender) = some v →
      resolve_route sender subject df exact generic = (some v, df)) := by
  constructor
  · rcases hek : alLookup exact (_normalize_sender_key sender) with _ | v
    · by_cases hdom : (_domain_from_sender sender).getD (_normalize_sender_key sender) = ""
      · left
        simp only [resolve_route, hek, if_pos hdom]
      · rcases hgl : alLookup generic
            ((_domain_from_sender sender).getD (_normalize_sender_key sender))
          with _ | entries
        · have : resolve_route sender subject df exact generic =
              resolveTier34 sender (pyLower (pyStrip subject))
                ((_domain_from_sender sender).getD (_normalize_sender_key sender)) df := by
            simp only [resolve_route, hek, if_neg hdom, hgl]
          rw [this]
          exact resolveTier34_frame ..
        · rcases hf : List.find?
              (fun e => e.1.any fun k => !(k = "" : Bool) && isSubstrS k (pyLower (pyStrip subject)))
              entries with _ | e
          · have : resolve_route sender subject df exact generic =
                resolveTier34 sender (pyLower (pyStrip subject))
                  ((_domain_from_sender sender).getD (_normalize_sender_key sender)) df := by
              simp only [resolve_route, hek, if_neg hdom, hgl, hf]
            rw [this]
            exact resolveTier34_frame ..
          · left
            simp only [resolve_route, hek, if_neg hdom, hgl, hf]
    · left
      simp only [resolve_route, hek]
  · intro v hv
    simp only [resolve_route, hv]

/-- Witness for C10's tier-1 part at a concrete input. -/
theorem resolve_route_frame_witness :
    alLookup [("a@q.com", ("R7", true))] (_normalize_sender_key " a@Q.com ") =
      some ("R7", true) ∧
    resolve_route " a@Q.com " "anything" [] [("a@q.com", ("R7", true))] [] =
      (some ("R7", true), []) :=
  ⟨by decide,
    (resolve_route_frame " a@Q.com " "anything" [] [("a@q.com", ("R7", true))] []).2
      ("R7", true) (by decide)⟩

/-- C3 counterexample.  The sender `"bob"` has no `@` (so
`_domain_from_sender` yields none) and is not a key of the exact index built
from the table, yet resolution does not fail: the source falls back to
using the whole normalized sender as the domain, and the generic rule that
`_build_route_index` keys under `"bob"` fires at tier 2. -/
theorem route_no_at_cex :
    _domain_from_sender "bob" = none ∧
    alLookup (_build_route_index [⟨"bob", "yes", "foo", "G", "no"⟩]).1 "bob" = none ∧
    resolve_route "bob" "xx foo yy" [⟨"bob", "yes", "foo", "G", "no"⟩]
        (_build_route_index [⟨"bob", "yes", "foo", "G", "no"⟩]).1
        (_build_route_index [⟨"bob", "yes", "foo", "G", "no"⟩]).2 =
      (some ("G", false), [⟨"bob", "yes", "foo", "G", "no"⟩]) := by
  decide

/-- C3 amended.  A sender address without `@` is treated as having its whole
normalized form as its domain (so resolution can still succeed at tiers
2–4); only a sender that normalizes to the empty string has no usable
domain, and for it resolution returns none with the table unchanged
(provided the empty string is not an exact-index key). -/
theorem route_empty_sender_absent (sender subject : String) (df : List Row)
    (exact : ExactIdx) (generic : GenericIdx)
    (hkey : _normalize_sender_key sender = "")
    (hex : alLookup exact "" = none) :
    resolve_route sender subject df exact generic = (none, df) := by
  have hd : _domain_from_sender sender = none := by
    simp [_domain_from_sender, hkey]
  simp only [resolve_route, hkey, hex, hd]
  simp

/-- Witness for C3's amended theorem at a concrete input. -/
theorem route_empty_sender_absent_witness :
    _normalize_sender_key "   " = "" ∧
    resolve_route "   " "subj" [⟨"b@x.com", "no", "", "R", "no"⟩] [] [] =
      (none, [⟨"b@x.com", "no", "", "R", "no"⟩]) :=
  ⟨by decide,
    route_empty_sender_absent "   " "subj" [⟨"b@x.com", "no", "", "R", "no"⟩] [] []
      (by decide) (by decide)⟩

/-- The domain `resolve_route` works with (the part after the last `@`, or
the whole normalized key when there is no `@`) is always a suffix of the
normalized key. -/
theorem domain_suffix_key (sender : String) :
    (((_domain_from_sender sender).getD (_normalize_sender_key sender)).data).isSuffixOf
      (_normalize_sender_key sender).data = true := by
  rw [List.isSuffixOf_iff_suffix]
  unfold _domain_from_sender
  by_cases h : (_normalize_sender_key sender).data.contains '@'
  · simp only [h, if_true]
    by_cases hd :
        (⟨(splitOnChar '@' (_normalize_sender_key sender).data).getLastD []⟩ : String) = ""
    · simp only [hd, if_true, Option.getD_none]
      exact List.suffix_refl _
    · simp only [hd, if_false, Option.getD_some]
      exact splitOnChar_getLastD_suffix '@' _
  · simp only [h, if_false, Option.getD_none]
    exact List.suffix_refl _

theorem resolveTier34_nonGen (sender subject_lc domain : String) (df : List Row)
    (r0 : Row)
    (hng : (List.filter (fun r => !_to_bool r.genericSender)
        (List.filter (fun r => domain.data.isSuffixOf (pyLower (pyStrip r.senderEmail)).data)
          df)).head? = some r0)
    (hroot : pyStrip r0.rootPath ≠ "") :
    resolveTier34 sender subject_lc domain df =
      (some (pyStrip r0.rootPath, false), df ++ [add_row sender (pyStrip r0.rootPath)]) := by
  rcases hcand : List.filter
      (fun r => domain.data.isSuffixOf (pyLower (pyStrip r.senderEmail)).data) df
    with _ | ⟨r, rs⟩
  · rw [hcand] at hng
    simp at hng
  · rw [hcand] at hng
    simp only [resolveTier34, hcand, hng, if_neg hroot]

theorem resolve_route_tier3 (sender subject : String) (df : List Row)
    (exact : ExactIdx) (generic : GenericIdx) (r0 : Row)
    (hex : alLookup exact (_normalize_sender_key sender) = none)
    (hgen : alLookup generic
      ((_domain_from_sender sender).getD (_normalize_sender_key sender)) = none)
    (hdom : (_domain_from_sender sender).getD (_normalize_sender_key sender) ≠ "")
    (hng : (List.filter (fun r => !_to_bool r.genericSender)
        (List.filter (fun r =>
            ((_domain_from_sender sender).getD
              (_normalize_sender_key sender)).data.isSuffixOf
              (pyLower (pyStrip r.senderEmail)).data)
          df)).head? = some r0)
    (hroot : pyStrip r0.rootPath ≠ "") :
    resolve_route sender subject df exact generic =
      (some (pyStrip r0.rootPath, false), df ++ [add_row sender (pyStrip r0.rootPath)]) := by
  have h34 := resolveTier34_nonGen sender (pyLower (pyStrip subject))
    ((_domain_from_sender sender).getD (_normalize_sender_key sender)) df r0 hng hroot
  simp only [resolve_route, hex, if_neg hdom, hgen]
  exact h34

/-- C1 amended.  When no exact rule and no tier-2 generic keyword rule
applies but the table has a non-generic row for the sender's domain with a
non-empty root, `resolve_route` returns that root with attachmentOnly=false
and appends the learned exact row `[sender, 'no', '', root, 'no']` to the
table; the tier-1 exact index, built once per run, is NOT updated, so a
second lookup for the same sender in the same run does not resolve at
tier 1 — it runs the tier-3 domain scan again, returns the same decision,
and appends a second copy of the learned row. -/
theorem route_learning_amended (sender subject : String) (df : List Row)
    (exact : ExactIdx) (generic : GenericIdx) (r0 : Row)
    (hex : alLookup exact (_normalize_sender_key sender) = none)
    (hgen : alLookup generic
      ((_domain_from_sender sender).getD (_normalize_sender_key sender)) = none)
    (hdom : (_domain_from_sender sender).getD (_normalize_sender_key sender) ≠ "")
    (hng : (List.filter (fun r => !_to_bool r.genericSender)
        (List.filter (fun r =>
            ((_domain_from_sender sender).getD
              (_normalize_sender_key sender)).data.isSuffixOf
              (pyLower (pyStrip r.senderEmail)).data)
          df)).head? = some r0)
    (hroot : pyStrip r0.rootPath ≠ "") :
    resolve_route sender subject df exact generic =
      (some (pyStrip r0.rootPath, false),
        df ++ [add_row sender (pyStrip r0.rootPath)]) ∧
    resolve_route sender subject (df ++ [add_row sender (pyStrip r0.rootPath)])
        exact generic =
      (some (pyStrip r0.rootPath, false),
        df ++ [add_row sender (pyStrip r0.rootPath)] ++
          [add_row sender (pyStrip r0.rootPath)]) := by
  refine ⟨resolve_route_tier3 sender subject df exact generic r0 hex hgen hdom hng hroot, ?_⟩
  have hpredL : (((_domain_from_sender sender).getD
      (_normalize_sender_key sender)).data.isSuffixOf
      (pyLower (pyStrip (add_row sender (pyStrip r0.rootPath)).senderEmail)).data) = true := by
    show (((_domain_from_sender sender).getD
      (_normalize_sender_key sender)).data.isSuffixOf
      (pyLower (pyStrip sender)).data) = true
    exact domain_suffix_key sender
  have hp2L : (!_to_bool (add_row sender (pyStrip r0.rootPath)).genericSender) = true := by
    show (!_to_bool "no") = true
    decide
  obtain ⟨t, ht⟩ : ∃ t, List.filter (fun r => !_to_bool r.genericSender)
      (List.filter (fun r =>
          ((_domain_from_sender sender).getD
            (_normalize_sender_key sender)).data.isSuffixOf
            (pyLower (pyStrip r.senderEmail)).data)
        df) = r0 :: t := by
    rcases hcase : List.filter (fun r => !_to_bool r.genericSender)
        (List.filter (fun r =>
            ((_domain_from_sender sender).getD
              (_normalize_sender_key sender)).data.isSuffixOf
              (pyLower (pyStrip r.senderEmail)).data)
          df) with _ | ⟨a, t⟩
    · rw [hcase] at hng; simp at hng
    · rw [hcase] at hng
      simp only [List.head?_cons, Option.some.injEq] at hng
      exact ⟨t, hng ▸ hcase⟩
  have hng2 : (List.filter (fun r => !_to_bool r.genericSender)
      (List.filter (fun r =>
          ((_domain_from_sender sender).getD
            (_normalize_sender_key sender)).data.isSuffixOf
            (pyLower (pyStrip r.senderEmail)).data)
        (df ++ [add_row sender (pyStrip r0.rootPath)]))).head? = some r0 := by
    rw [List.filter_append, List.filter_append]
    simp only [List.filter_cons, List.filter_nil, hpredL, if_true, hp2L]
    rw [ht]
    rfl
  exact resolve_route_tier3 sender subject
    (df ++ [add_row sender (pyStrip r0.rootPath)]) exact generic r0 hex hgen hdom hng2 hroot

/-- Witness for C1's amended theorem at the concrete one-row table. -/
theorem route_learning_amended_witness :
    resolve_route "a@x.com" "" [⟨"b@x.com", "no", "", "R", "no"⟩]
        [("b@x.com", ("R", false))] [] =
      (some ("R", false),
        [⟨"b@x.com", "no", "", "R", "no"⟩, add_row "a@x.com" "R"]) :=  by
  have h := (route_learning_amended "a@x.com" "" [⟨"b@x.com", "no", "", "R", "no"⟩]
    [("b@x.com", ("R", false))] [] ⟨"b@x.com", "no", "", "R", "no"⟩
    (by decide) (by decide) (by decide) (by decide) (by decide)).1
  exact h

/-- C1 counterexample.  On the one-row table for domain `x.com` with root
`R`, the first call for the unseen sender `a@x.com` does return `(R, false)`
and append the learned exact row — but the exact index still has no entry
for `a@x.com` afterwards, and the second call for the same sender mutates
the table again (appending a second learned row), which a tier-1 resolution
never does: the second lookup is served by the tier-3 domain scan, not by
the exact-sender index. -/
theorem route_learning_cex :
    resolve_route "a@x.com" "" [⟨"b@x.com", "no", "", "R", "no"⟩]
        (_build_route_index [⟨"b@x.com", "no", "", "R", "no"⟩]).1
        (_build_route_index [⟨"b@x.com", "no", "", "R", "no"⟩]).2 =
      (some ("R", false),
        [⟨"b@x.com", "no", "", "R", "no"⟩, add_row "a@x.com" "R"]) ∧
    alLookup (_build_route_index [⟨"b@x.com", "no", "", "R", "no"⟩]).1 "a@x.com" =
      none ∧
    resolve_route "a@x.com" ""
        [⟨"b@x.com", "no", "", "R", "no"⟩, add_row "a@x.com" "R"]
        (_build_route_index [⟨"b@x.com", "no", "", "R", "no"⟩]).1
        (_build_route_index [⟨"b@x.com", "no", "", "R", "no"⟩]).2 =
      (some ("R", false),
        [⟨"b@x.com", "no", "", "R", "no"⟩, add_row "a@x.com" "R",
          add_row "a@x.com" "R"]) := by
  decide

/-- The list of month numbers whose `MON` word occurs in the lower-cased
text — the months for which the bare-month recognizer fires. -/
def firedMonths (tc : List Char) : List Nat :=
  monthAlts.filterMap fun wn => if isSubstr wn.1 (lowerL tc) then some wn.2 else none

theorem filterMap_if_factor (L : List (List Char × Nat)) (p : List Char → Bool)
    (g : Nat → Cand) :
    (L.filterMap fun wn => if p wn.1 then some (g wn.2) else none) =
      (L.filterMap fun wn => if p wn.1 then some wn.2 else none).map g := by
  induction L with
  | nil => rfl
  | cons a l ih =>
    simp only [List.filterMap_cons]
    by_cases h : p a.1
    · simp only [if_pos h, List.filterMap_cons, ih, List.map_cons]
    · simp only [if_neg h, List.filterMap_cons, ih]

theorem recBareMonth_eq (tc : List Char) (b : Nat) (today : Date) :
    recBareMonth tc b today =
      keepValid ((firedMonths tc).map fun n => ⟨today.year, n, 10 + b⟩) := by
  unfold recBareMonth firedMonths
  exact congrArg keepValid
    (filterMap_if_factor monthAlts (fun w => isSubstr w (lowerL tc))
      (fun n => ⟨today.year, n, 10 + b⟩))

theorem mem_fired_bare {tc : List Char} {b : Nat} {today : Date} {w : List Char}
    {n : Nat} (hw : (w, n) ∈ monthAlts) (hs : isSubstr w (lowerL tc) = true)
    (h1 : 1900 ≤ today.year) (h2 : today.year ≤ 2100) :
    (⟨today.year, n, 10 + b⟩ : Cand) ∈ recBareMonth tc b today := by
  have hn : 1 ≤ n ∧ n ≤ 12 := by
    have hall : ∀ p ∈ monthAlts, 1 ≤ p.2 ∧ p.2 ≤ 12 := by decide
    exact hall (w, n) hw
  have hmem : (⟨today.year, n, 10 + b⟩ : Cand) ∈
      monthAlts.filterMap fun wn =>
        if isSubstr wn.1 (lowerL tc) then some (⟨today.year, wn.2, 10 + b⟩ : Cand)
        else none := by
    rw [List.mem_filterMap]
    exact ⟨(w, n), hw, by rw [if_pos hs]⟩
  unfold recBareMonth keepValid
  rw [List.mem_filter]
  refine ⟨hmem, decide_eq_true ?_⟩
  exact ⟨hn.1, hn.2, h1, h2⟩

theorem keepValid_map_const {L : List Nat} {g : Nat → Cand} {mval : Nat}
    (hne : L ≠ []) (hall : ∀ n ∈ L, n = mval) (hv : validCand (g mval)) :
    keepValid (L.map g) ≠ [] ∧ ∀ c ∈ keepValid (L.map g), c = g mval := by
  constructor
  · obtain ⟨n0, L', rfl⟩ := List.exists_cons_of_ne_nil hne
    have hn0 : n0 = mval := hall n0 (List.mem_cons_self ..)
    unfold keepValid
    rw [List.map_cons, List.filter_cons, hn0, decide_eq_true hv]
    simp
  · intro c hc
    obtain ⟨hm, _⟩ := mem_keepValid hc
    obtain ⟨n, hn, rfl⟩ := List.mem_map.mp hm
    rw [hall n hn]

theorem detectFromCands_const (c0 : Cand) (cands : List Cand) (today : Date)
    (hne : cands ≠ []) (hall : ∀ c ∈ cands, c = c0) :
    detectFromCands cands today =
      (if today.year < c0.y then (today.year, none)
       else if c0.y = today.year ∧ today.month < c0.m then (today.year, none)
       else (c0.y, some c0.m)) := by
  rw [detectFromCands_eq cands today hne]
  rw [hall _ (pySort_getLastD_max hne _).1]

/-- C9 amended.  The bare-month recognizer fires whenever a `MON` word
occurs as a case-insensitive substring anywhere in the text, including
inside a longer word; in particular a subject `"market"` (which contains
`"mar"`) with no other date pattern yields the candidate (current year, 3,
weight 10), and `detect_period` returns (current year, month 3) — provided
the current month is at least March, since otherwise the recency clamp
discards the month. -/
theorem bare_month_substring_amended :
    (∀ (tc : List Char) (b : Nat) (today : Date) (w : List Char) (n : Nat),
        (w, n) ∈ monthAlts → isSubstr w (lowerL tc) = true →
        1900 ≤ today.year → today.year ≤ 2100 →
        (⟨today.year, n, 10 + b⟩ : Cand) ∈ recBareMonth tc b today) ∧
    (∀ today : Date, 1900 ≤ today.year → today.year ≤ 2100 → 3 ≤ today.month →
        detect_period "market" [] today = (today.year, some 3)) := by
  refine ⟨fun tc b today w n hw hs h1 h2 => mem_fired_bare hw hs h1 h2, ?_⟩
  intro today h1 h2 h3
  have e01 : recMonYyyy (cleanText "market".data) 0 = [] := by decide
  have e02 : recYyyyMon (cleanText "market".data) 0 = [] := by decide
  have e03 : recMonYy (cleanText "market".data) 0 = [] := by decide
  have e04 : recDdMonYyyy (cleanText "market".data) 0 = [] := by decide
  have e05 : recMonDdYyyy (cleanText "market".data) 0 = [] := by decide
  have e06 : recDdMonYyyyContig (cleanText "market".data) 0 = [] := by decide
  have e07 : recQnYyyy (cleanText "market".data) 0 = [] := by decide
  have e08 : recYyyyQn (cleanText "market".data) 0 = [] := by decide
  have e09 : recNqYyyy (cleanText "market".data) 0 = [] := by decide
  have e10 : recYyyyMm (cleanText "market".data) 0 = [] := by decide
  have e11 : recMmYyyy (cleanText "market".data) 0 = [] := by decide
  have e12 : recYyyymm (cleanText "market".data) 0 = [] := by decide
  have e13 : recMmyyyy (cleanText "market".data) 0 = [] := by decide
  have e14 : recDdMmYyyy (cleanText "market".data) 0 = [] := by decide
  have e15 : recYyyyMmDd (cleanText "market".data) 0 = [] := by decide
  have e16 : recDdmmyyyy (cleanText "market".data) 0 = [] := by decide
  have e17 : recDdmmyy (cleanText "market".data) 0 = [] := by decide
  have e18 : recIso (cleanText "market".data) 0 = [] := by decide
  have hfm : firedMonths (cleanText "market".data) = [3] := by decide
  have hext : extractAll "market" [] today =
      keepValid ((firedMonths (cleanText "market".data)).map
        fun n => ⟨today.year, n, 10 + 0⟩) := by
    show ([("market", 0)] : List (String × Nat)).flatMap
        (fun tb => if tb.1 = "" then [] else extractText tb.1.data tb.2 today) = _
    simp only [List.flatMap_cons, List.flatMap_nil, List.append_nil]
    rw [if_neg (by decide : ¬(("market", 0) : String × Nat).1 = "")]
    show extractText "market".data 0 today = _
    rw [extractText]
    rw [e01, e02, e03, e04, e05, e06, e07, e08, e09, e10, e11, e12, e13, e14,
      e15, e16, e17, e18, recBareMonth_eq]
    simp
  have hv : validCand (⟨today.year, 3, 10 + 0⟩ : Cand) :=
    ⟨by show (1 : Nat) ≤ 3; decide, by show (3 : Nat) ≤ 12; decide, h1, h2⟩
  have hkm := @keepValid_map_const (firedMonths (cleanText "market".data))
    (fun n => ⟨today.year, n, 10 + 0⟩) 3
    (by rw [hfm]; simp) (by rw [hfm]; simp) hv
  have hres : detect_period "market" [] today =
      (if today.year < today.year then (today.year, none)
       else if today.year = today.year ∧ today.month < 3 then (today.year, none)
       else (today.year, some 3)) := by
    show detectFromCands (extractAll "market" [] today) today = _
    rw [hext]
    exact detectFromCands_const ⟨today.year, 3, 10 + 0⟩ _ today hkm.1 hkm.2
  rw [hres, if_neg (lt_irrefl today.year),
    if_neg (by intro h; exact absurd h.2 (by omega))]

/-- Witness for C9's amended theorem at a concrete run date. -/
theorem bare_month_substring_amended_witness :
    isSubstr "mar".data (lowerL (cleanText "market".data)) = true ∧
    (⟨2025, 3, 10 + 0⟩ : Cand) ∈ recBareMonth (cleanText "market".data) 0 ⟨2025, 10⟩ ∧
    detect_period "market" [] ⟨2025, 10⟩ = (2025, some 3) :=
  ⟨by decide,
    bare_month_substring_amended.1 (cleanText "market".data) 0 ⟨2025, 10⟩ "mar".data 3
      (by decide) (by decide) (by decide) (by decide),
    bare_month_substring_amended.2 ⟨2025, 10⟩ (by decide) (by decide) (by decide)⟩

/-- C9 counterexample.  At a run date in January the recency clamp discards
the bare-month candidate's month: `detect_period "market"` yields (current
year, month absent), not (current year, 3) as the claim states. -/
theorem bare_month_substring_cex :
    detect_period "market" [] ⟨2025, 1⟩ = (2025, none) ∧
    ((2025, none) : Nat × Option Nat) ≠ (2025, some 3) := by
  decide

/-- C2 amended.  The bare-month recognizer always infers the CURRENT year
for a month name without a year — never the previous year.  Consequently,
for a subject that is exactly a `MON` month word, `detect_period` returns
(current year, that month) when the month index is at most the current
month, and (current year, month absent) otherwise: the future-month case is
handled by the recency clamp discarding the month, not by rolling back to
the previous year. -/
theorem bare_month_year_amended :
    (∀ (tc : List Char) (b : Nat) (today : Date) (c : Cand),
        c ∈ recBareMonth tc b today → c.y = today.year) ∧
    (∀ wn ∈ monthAlts, ∀ today : Date, 1900 ≤ today.year → today.year ≤ 2100 →
        detect_period ⟨wn.1⟩ [] today =
          if wn.2 ≤ today.month then (today.year, some wn.2)
          else (today.year, none)) := by
  refine ⟨fun tc b today c hc => (recBareMonth_spec hc).1, ?_⟩
  intro wn hwn today h1 h2
  have hbulk : ∀ p ∈ monthAlts,
      (⟨p.1⟩ : String) ≠ "" ∧
      recMonYyyy (cleanText p.1) 0 = [] ∧ recYyyyMon (cleanText p.1) 0 = [] ∧
      recMonYy (cleanText p.1) 0 = [] ∧ recDdMonYyyy (cleanText p.1) 0 = [] ∧
      recMonDdYyyy (cleanText p.1) 0 = [] ∧ recDdMonYyyyContig (cleanText p.1) 0 = [] ∧
      recQnYyyy (cleanText p.1) 0 = [] ∧ recYyyyQn (cleanText p.1) 0 = [] ∧
      recNqYyyy (cleanText p.1) 0 = [] ∧ recYyyyMm (cleanText p.1) 0 = [] ∧
      recMmYyyy (cleanText p.1) 0 = [] ∧ recYyyymm (cleanText p.1) 0 = [] ∧
      recMmyyyy (cleanText p.1) 0 = [] ∧ recDdMmYyyy (cleanText p.1) 0 = [] ∧
      recYyyyMmDd (cleanText p.1) 0 = [] ∧ recDdmmyyyy (cleanText p.1) 0 = [] ∧
      recDdmmyy (cleanText p.1) 0 = [] ∧ recIso (cleanText p.1) 0 = [] ∧
      firedMonths (cleanText p.1) ≠ [] ∧
      (∀ n ∈ firedMonths (cleanText p.1), n = p.2) ∧
      1 ≤ p.2 ∧ p.2 ≤ 12 := by decide
  obtain ⟨hne0, e01, e02, e03, e04, e05, e06, e07, e08, e09, e10, e11, e12, e13,
    e14, e15, e16, e17, e18, hfne, hall, hm1, hm12⟩ := hbulk wn hwn
  have hext : extractAll ⟨wn.1⟩ [] today =
      keepValid ((firedMonths (cleanText wn.1)).map
        fun n => ⟨today.year, n, 10 + 0⟩) := by
    show ([((⟨wn.1⟩ : String), 0)] : List (String × Nat)).flatMap
        (fun tb => if tb.1 = "" then [] else extractText tb.1.data tb.2 today) = _
    simp only [List.flatMap_cons, List.flatMap_nil, List.append_nil]
    rw [if_neg (by exact hne0)]
    show extractText wn.1 0 today = _
    rw [extractText]
    rw [e01, e02, e03, e04, e05, e06, e07, e08, e09, e10, e11, e12, e13, e14,
      e15, e16, e17, e18, recBareMonth_eq]
    simp
  have hv : validCand (⟨today.year, wn.2, 10 + 0⟩ : Cand) := ⟨hm1, hm12, h1, h2⟩
  have hkm := @keepValid_map_const (firedMonths (cleanText wn.1))
    (fun n => ⟨today.year, n, 10 + 0⟩) wn.2 hfne hall hv
  have hres : detect_period ⟨wn.1⟩ [] today =
      (if today.year < today.year then (today.year, none)
       else if today.year = today.year ∧ today.month < wn.2 then (today.year, none)
       else (today.year, some wn.2)) := by
    show detectFromCands (extractAll ⟨wn.1⟩ [] today) today = _
    rw [hext]
    exact detectFromCands_const ⟨today.year, wn.2, 10 + 0⟩ _ today hkm.1 hkm.2
  rw [hres, if_neg (lt_irrefl today.year)]
  by_cases hm : wn.2 ≤ today.month
  · rw [if_neg (fun h => absurd h.2 (by omega)), if_pos hm]
  · rw [if_pos ⟨rfl, by omega⟩, if_neg hm]

/-- Witness for C2's amended theorem: the subject `"december"` at run date
2025-10 keeps the current year and drops the month via the clamp. -/
theorem bare_month_year_amended_witness :
    (("december".data, 12) ∈ monthAlts) ∧
    detect_period ⟨"december".data⟩ [] ⟨2025, 10⟩ = (2025, none) := by
  refine ⟨by decide, ?_⟩
  have h := bare_month_year_amended.2 ("december".data, 12) (by decide) ⟨2025, 10⟩
    (by decide) (by decide)
  simpa using h

/-- C2 counterexample.  For the subject `"December"` at run date 2025-10
(month index 12 > current month 10) the source returns (2025, month
absent) — the current year with the month discarded by the clamp — and not
(2024, December) as the claimed previous-year inference would give. -/
theorem bare_month_year_cex :
    detect_period "December" [] ⟨2025, 10⟩ = (2025, none) ∧
    ((2025, none) : Nat × Option Nat) ≠ (2024, some 12) := by
  decide

/-- Lexicographic order on (year, month) pairs, the tie-break among
equal-weight candidates. -/
def pairLe (a b : Nat × Nat) : Bool :=
  decide (a.1 < b.1 ∨ (a.1 = b.1 ∧ a.2 ≤ b.2))

/-- The recency clamp applied to a selected (year, month) pair. -/
def clampPair (p : Nat × Nat) (today : Date) : Nat × Option Nat :=
  if today.year < p.1 then (today.year, none)
  else if p.1 = today.year ∧ today.month < p.2 then (today.year, none)
  else (p.1, some p.2)

theorem keyLe_eq_w_pairLe {y1 m1 y2 m2 w : Nat}
    (h : keyLe ⟨y1, m1, w⟩ ⟨y2, m2, w⟩ = true) :
    pairLe (y1, m1) (y2, m2) = true := by
  rw [keyLe, decide_eq_true_iff] at h
  have h' : w < w ∨ (w = w ∧ (y1 < y2 ∨ (y1 = y2 ∧ m1 ≤ m2))) := h
  rw [pairLe, decide_eq_true_iff]
  show y1 < y2 ∨ (y1 = y2 ∧ m1 ≤ m2)
  omega


/-- Every group pair `(y, m)` extracted by `pat_yyyy_mon` satisfies the
`add_candidate` bounds. -/
theorem patYyyyMon_bounds {st : PState} {p : Nat × Nat} {st2 : PState}
    (h : (p, st2) ∈ patYyyyMon st) :
    1 ≤ p.2 ∧ p.2 ≤ 12 ∧ 1900 ≤ p.1 ∧ p.1 ≤ 2099 := by
  simp only [patYyyyMon, Rx.bind_apply, List.mem_flatMap, Rx.pure_apply,
    List.mem_singleton] at h
  obtain ⟨x1, _, ⟨y, sty⟩, hy, x3, _, x4, _, x5, _, ⟨m, stm⟩, hm, x7, _, heq⟩ := h
  have hmb := rxMonWord_bounds hm
  have hyb := rxYear4_bounds hy
  cases heq
  exact ⟨hmb.1, hmb.2, hyb.1, hyb.2⟩

/-- The `pat_mon_yyyy` recognizer keeps every match: its candidates are
exactly the matched (year, month) pairs at weight `100 + bonus`. -/
theorem recMonYyyy_pairs (t : List Char) (b : Nat) :
    recMonYyyy t b = (scanPat patMonYyyy t).map fun p => ⟨p.1, p.2, 100 + b⟩ := by
  unfold recMonYyyy
  apply keepValid_eq_self
  intro c hc
  obtain ⟨q, hq, rfl⟩ := List.mem_map.mp hc
  obtain ⟨st, st2, hm⟩ := scanPat_sound hq
  obtain ⟨h1, h2, h3, h4⟩ := patMonYyyy_bounds hm
  exact ⟨h1, h2, h3, Nat.le_trans h4 (by norm_num)⟩

/-- The `pat_yyyy_mon` recognizer keeps every match: its candidates are
exactly the matched (year, month) pairs at weight `95 + bonus`. -/
theorem recYyyyMon_pairs (t : List Char) (b : Nat) :
    recYyyyMon t b = (scanPat patYyyyMon t).map fun p => ⟨p.1, p.2, 95 + b⟩ := by
  unfold recYyyyMon
  apply keepValid_eq_self
  intro c hc
  obtain ⟨q, hq, rfl⟩ := List.mem_map.mp hc
  obtain ⟨st, st2, hm⟩ := scanPat_sound hq
  obtain ⟨h1, h2, h3, h4⟩ := patYyyyMon_bounds hm
  exact ⟨h1, h2, h3, Nat.le_trans h4 (by norm_num)⟩

/-- Weight classification of one text's candidates: nothing exceeds
`100 + bonus`; weight `100 + bonus` is attained only by `pat_mon_yyyy`
candidates and weight `95 + bonus` only by `pat_yyyy_mon` candidates, and
every other family stays at or below `95 + bonus`. -/
theorem extractText_w_cases {t : List Char} {b : Nat} {today : Date} {c : Cand}
    (h : c ∈ extractText t b today) :
    c.w ≤ 100 + b ∧
    (c.w = 100 + b → c ∈ recMonYyyy (cleanText t) b) ∧
    (c.w = 95 + b → c ∈ recYyyyMon (cleanText t) b) ∧
    (c.w = 100 + b ∨ c.w ≤ 95 + b) := by
  simp only [extractText, List.mem_append] at h
  rcases h with ((((((((((((((((((h | h) | h) | h) | h) | h) | h) | h) | h) |
    h) | h) | h) | h) | h) | h) | h) | h) | h) | h)
  · have hw := recMonYyyy_w h
    exact ⟨by omega, fun _ => h, fun hh => absurd hh (by omega), by omega⟩
  · have hw := recYyyyMon_w h
    exact ⟨by omega, fun hh => absurd hh (by omega), fun _ => h, by omega⟩
  · have hw := recMonYy_w h
    exact ⟨by omega, fun hh => absurd hh (by omega), fun hh => absurd hh (by omega),
      by omega⟩
  · have hw := recDdMonYyyy_w h
    exact ⟨by omega, fun hh => absurd hh (by omega), fun hh => absurd hh (by omega),
      by omega⟩
  · have hw := recMonDdYyyy_w h
    exact ⟨by omega, fun hh => absurd hh (by omega), fun hh => absurd hh (by omega),
      by omega⟩
  · have hw := recDdMonYyyyContig_w h
    exact ⟨by omega, fun hh => absurd hh (by omega), fun hh => absurd hh (by omega),
      by omega⟩
  · have hw := recQnYyyy_w h
    exact ⟨by omega, fun hh => absurd hh (by omega), fun hh => absurd hh (by omega),
      by omega⟩
  · have hw := recYyyyQn_w h
    exact ⟨by omega, fun hh => absurd hh (by omega), fun hh => absurd hh (by omega),
      by omega⟩
  · have hw := recNqYyyy_w h
    exact ⟨by omega, fun hh => absurd hh (by omega), fun hh => absurd hh (by omega),
      by omega⟩
  · have hw := recYyyyMm_w h
    exact ⟨by omega, fun hh => absurd hh (by omega), fun hh => absurd hh (by omega),
      by omega⟩
  · have hw := recMmYyyy_w h
    exact ⟨by omega, fun hh => absurd hh (by omega), fun hh => absurd hh (by omega),
      by omega⟩
  · have hw := recYyyymm_w h
    exact ⟨by omega, fun hh => absurd hh (by omega), fun hh => absurd hh (by omega),
      by omega⟩
  · have hw := recMmyyyy_w h
    exact ⟨by omega, fun hh => absurd hh (by omega), fun hh => absurd hh (by omega),
      by omega⟩
  · have hw := recDdMmYyyy_w h
    exact ⟨by omega, fun hh => absurd hh (by omega), fun hh => absurd hh (by omega),
      by omega⟩
  · have hw := recYyyyMmDd_w h
    exact ⟨by omega, fun hh => absurd hh (by omega), fun hh => absurd hh (by omega),
      by omega⟩
  · have hw := recDdmmyyyy_w h
    exact ⟨by omega, fun hh => absurd hh (by omega), fun hh => absurd hh (by omega),
      by omega⟩
  · have hw := recDdmmyy_w h
    exact ⟨by omega, fun hh => absurd hh (by omega), fun hh => absurd hh (by omega),
      by omega⟩
  · have hw := recIso_w h
    exact ⟨by omega, fun hh => absurd hh (by omega), fun hh => absurd hh (by omega),
      by omega⟩
  · have hw := (recBareMonth_spec h).2
    exact ⟨by omega, fun hh => absurd hh (by omega), fun hh => absurd hh (by omega),
      by omega⟩

/-- Every candidate of the whole message comes from the subject (bonus 0)
or from one of the attachment names (bonus 5). -/
theorem extractAll_cases {subject : String} {atts : List String} {today : Date}
    {c : Cand} (h : c ∈ extractAll subject atts today) :
    c ∈ extractText subject.data 0 today ∨
    ∃ a ∈ atts, c ∈ extractText a.data 5 today := by
  simp only [extractAll, List.mem_flatMap] at h
  obtain ⟨tb, htb, hc⟩ := h
  split at hc
  · exact absurd hc (List.not_mem_nil c)
  · rcases List.mem_cons.mp htb with rfl | hmem
    · exact Or.inl hc
    · obtain ⟨a, ha, rfl⟩ := List.mem_map.mp hmem
      exact Or.inr ⟨a, ha, hc⟩

theorem mem_extractAll_of_subject {subject : String} {atts : List String}
    {today : Date} {c : Cand} (hs : subject ≠ "")
    (h : c ∈ extractText subject.data 0 today) :
    c ∈ extractAll subject atts today := by
  simp only [extractAll, List.mem_flatMap]
  refine ⟨(subject, 0), List.mem_cons_self .., ?_⟩
  rw [if_neg (by exact hs)]
  exact h

theorem mem_extractAll_of_att {subject : String} {atts : List String}
    {today : Date} {c : Cand} {a : String} (ha : a ∈ atts) (hs : a ≠ "")
    (h : c ∈ extractText a.data 5 today) :
    c ∈ extractAll subject atts today := by
  simp only [extractAll, List.mem_flatMap]
  refine ⟨(a, 5), List.mem_cons_of_mem _ (List.mem_map.mpr ⟨a, ha, rfl⟩), ?_⟩
  rw [if_neg (by exact hs)]
  exact h

theorem mem_extractText_of_recMonYyyy {t : List Char} {b : Nat} {today : Date}
    {c : Cand} (h : c ∈ recMonYyyy (cleanText t) b) : c ∈ extractText t b today := by
  simp only [extractText, List.mem_append]
  tauto

theorem mem_extractText_of_recYyyyMon {t : List Char} {b : Nat} {today : Date}
    {c : Cand} (h : c ∈ recYyyyMon (cleanText t) b) : c ∈ extractText t b today := by
  simp only [extractText, List.mem_append]
  tauto

theorem keyLe_pairLe {y1 m1 w1 y2 m2 w2 : Nat}
    (h : keyLe ⟨y1, m1, w1⟩ ⟨y2, m2, w2⟩ = true) (hw : w2 ≤ w1) :
    pairLe (y1, m1) (y2, m2) = true := by
  rw [keyLe, decide_eq_true_iff] at h
  have h' : w1 < w2 ∨ (w1 = w2 ∧ (y1 < y2 ∨ (y1 = y2 ∧ m1 ≤ m2))) := h
  rw [pairLe, decide_eq_true_iff]
  show y1 < y2 ∨ (y1 = y2 ∧ m1 ≤ m2)
  omega

/-- The (year, month) group pairs `pat_mon_yyyy` finds in one text. -/
def monYyyyPairs (t : String) : List (Nat × Nat) :=
  scanPat patMonYyyy (cleanText t.data)

/-- The (year, month) group pairs `pat_yyyy_mon` finds in one text. -/
def yyyyMonPairs (t : String) : List (Nat × Nat) :=
  scanPat patYyyyMon (cleanText t.data)

theorem ne_of_mem_monYyyyPairs {t : String} {q : Nat × Nat}
    (h : q ∈ monYyyyPairs t) : t ≠ "" := by
  intro ht
  rw [ht] at h
  rw [show monYyyyPairs "" = [] from rfl] at h
  exact absurd h (List.not_mem_nil q)

theorem ne_of_mem_yyyyMonPairs {t : String} {q : Nat × Nat}
    (h : q ∈ yyyyMonPairs t) : t ≠ "" := by
  intro ht
  rw [ht] at h
  rw [show yyyyMonPairs "" = [] from rfl] at h
  exact absurd h (List.not_mem_nil q)

/-- C6 amended.  `detect_period` on a whole message is decided by the top
weight class among month-name/year matches.  Attachment-name
month-name + 4-digit-year matches carry weight 105 and dominate everything
else: when any exist, the resolver returns the lexicographically greatest
such (year, month) pair, clamped.  When there are none, subject
month-name + year matches (weight 100) tie with attachment-name
4-digit-year + month-name matches (95 + 5): when that combined class is
non-empty, the resolver returns its lexicographically greatest pair,
clamped.  In particular, for a subject-only message the subject's greatest
month-name + year pair decides, but noise in other texts of the same
message can override a given pair — the original per-text claim fails both
through the clamp and through higher-ranked pairs elsewhere in the
message. -/
theorem mon_yyyy_dominates (subject : String) (atts : List String) (today : Date) :
    (atts.flatMap monYyyyPairs ≠ [] →
      ∃ p ∈ atts.flatMap monYyyyPairs,
        (∀ q ∈ atts.flatMap monYyyyPairs, pairLe q p = true) ∧
        detect_period subject atts today = clampPair p today) ∧
    (atts.flatMap monYyyyPairs = [] →
      monYyyyPairs subject ++ atts.flatMap yyyyMonPairs ≠ [] →
      ∃ p ∈ monYyyyPairs subject ++ atts.flatMap yyyyMonPairs,
        (∀ q ∈ monYyyyPairs subject ++ atts.flatMap yyyyMonPairs, pairLe q p = true) ∧
        detect_period subject atts today = clampPair p today) := by
  constructor
  · intro hPA
    obtain ⟨p0, hp0⟩ := List.exists_mem_of_ne_nil _ hPA
    obtain ⟨a0, ha0, hp0a⟩ := List.mem_flatMap.mp hp0
    have hc1mem : (⟨p0.1, p0.2, 100 + 5⟩ : Cand) ∈ extractAll subject atts today :=
      mem_extractAll_of_att ha0 (ne_of_mem_monYyyyPairs hp0a)
        (mem_extractText_of_recMonYyyy
          (by rw [recMonYyyy_pairs]; exact List.mem_map.mpr ⟨p0, hp0a, rfl⟩))
    have hEne : extractAll subject atts today ≠ [] := by
      intro h
      rw [h] at hc1mem
      exact absurd hc1mem (List.not_mem_nil _)
    have hmax := pySort_getLastD_max hEne ⟨0, 0, 0⟩
    have hge : 100 + 5 ≤
        ((pySort (extractAll subject atts today)).getLastD ⟨0, 0, 0⟩).w :=
      keyLe_w (hmax.2 _ hc1mem)
    rcases extractAll_cases hmax.1 with hsub | ⟨a, ha, hatt⟩
    · exfalso
      have := (extractText_w_cases hsub).1
      omega
    · have hw := extractText_w_cases hatt
      have hmem5 := hw.2.1 (by omega :
        ((pySort (extractAll subject atts today)).getLastD ⟨0, 0, 0⟩).w = 100 + 5)
      rw [recMonYyyy_pairs] at hmem5
      obtain ⟨p, hpmem, hpeq⟩ := List.mem_map.mp hmem5
      refine ⟨p, List.mem_flatMap.mpr ⟨a, ha, hpmem⟩, ?_, ?_⟩
      · intro q hq
        obtain ⟨a2, ha2, hq2⟩ := List.mem_flatMap.mp hq
        have hqmem : (⟨q.1, q.2, 100 + 5⟩ : Cand) ∈ extractAll subject atts today :=
          mem_extractAll_of_att ha2 (ne_of_mem_monYyyyPairs hq2)
            (mem_extractText_of_recMonYyyy
              (by rw [recMonYyyy_pairs]; exact List.mem_map.mpr ⟨q, hq2, rfl⟩))
        have hkey := hmax.2 _ hqmem
        rw [← hpeq] at hkey
        exact keyLe_pairLe hkey (le_refl _)
      · rw [show detect_period subject atts today =
            detectFromCands (extractAll subject atts today) today from rfl,
          detectFromCands_eq _ _ hEne, ← hpeq]
        rfl
  · intro hPA hne
    have hWle : ∀ c ∈ extractAll subject atts today, c.w ≤ 100 := by
      intro c hc
      rcases extractAll_cases hc with hsub | ⟨a, ha, hatt⟩
      · have := (extractText_w_cases hsub).1
        omega
      · have hw := extractText_w_cases hatt
        rcases hw.2.2.2 with h105 | hle
        · exfalso
          have hmem := hw.2.1 h105
          rw [recMonYyyy_pairs] at hmem
          obtain ⟨q, hq, _⟩ := List.mem_map.mp hmem
          have hmemPA : q ∈ atts.flatMap monYyyyPairs :=
            List.mem_flatMap.mpr ⟨a, ha, hq⟩
          rw [hPA] at hmemPA
          exact absurd hmemPA (List.not_mem_nil _)
        · omega
    obtain ⟨p0, hp0⟩ := List.exists_mem_of_ne_nil _ hne
    have hc1 : ∃ c1 : Cand, c1 ∈ extractAll subject atts today ∧ c1.w = 100 := by
      rcases List.mem_append.mp hp0 with hps | hpy
      · exact ⟨⟨p0.1, p0.2, 100 + 0⟩,
          mem_extractAll_of_subject (ne_of_mem_monYyyyPairs hps)
            (mem_extractText_of_recMonYyyy
              (by rw [recMonYyyy_pairs]; exact List.mem_map.mpr ⟨p0, hps, rfl⟩)),
          rfl⟩
      · obtain ⟨a, ha, hqa⟩ := List.mem_flatMap.mp hpy
        exact ⟨⟨p0.1, p0.2, 95 + 5⟩,
          mem_extractAll_of_att ha (ne_of_mem_yyyyMonPairs hqa)
            (mem_extractText_of_recYyyyMon
              (by rw [recYyyyMon_pairs]; exact List.mem_map.mpr ⟨p0, hqa, rfl⟩)),
          rfl⟩
    obtain ⟨c1, hc1mem, hc1w⟩ := hc1
    have hEne : extractAll subject atts today ≠ [] := by
      intro h
      rw [h] at hc1mem
      exact absurd hc1mem (List.not_mem_nil _)
    have hmax := pySort_getLastD_max hEne ⟨0, 0, 0⟩
    have hge : 100 ≤
        ((pySort (extractAll subject atts today)).getLastD ⟨0, 0, 0⟩).w := by
      have := keyLe_w (hmax.2 _ hc1mem)
      omega
    have hcw : ((pySort (extractAll subject atts today)).getLastD ⟨0, 0, 0⟩).w = 100 := by
      have := hWle _ hmax.1
      omega
    have hclass : ∃ p ∈ monYyyyPairs subject ++ atts.flatMap yyyyMonPairs,
        (pySort (extractAll subject atts today)).getLastD ⟨0, 0, 0⟩ =
          ⟨p.1, p.2, 100⟩ := by
      rcases extractAll_cases hmax.1 with hsub | ⟨a, ha, hatt⟩
      · have hw := extractText_w_cases hsub
        have hmem := hw.2.1 (by omega :
          ((pySort (extractAll subject atts today)).getLastD ⟨0, 0, 0⟩).w = 100 + 0)
        rw [recMonYyyy_pairs] at hmem
        obtain ⟨p, hp, hpeq⟩ := List.mem_map.mp hmem
        exact ⟨p, List.mem_append.mpr (Or.inl hp), hpeq.symm⟩
      · have hw := extractText_w_cases hatt
        have hmem := hw.2.2.1 (by omega :
          ((pySort (extractAll subject atts today)).getLastD ⟨0, 0, 0⟩).w = 95 + 5)
        rw [recYyyyMon_pairs] at hmem
        obtain ⟨p, hp, hpeq⟩ := List.mem_map.mp hmem
        exact ⟨p,
          List.mem_append.mpr (Or.inr (List.mem_flatMap.mpr ⟨a, ha, hp⟩)),
          hpeq.symm⟩
    obtain ⟨p, hpmem, hpeq⟩ := hclass
    refine ⟨p, hpmem, ?_, ?_⟩
    · intro q hq
      have hqmem : ∃ w1, (⟨q.1, q.2, w1⟩ : Cand) ∈ extractAll subject atts today ∧
          100 ≤ w1 := by
        rcases List.mem_append.mp hq with hps | hpy
        · exact ⟨100 + 0,
            mem_extractAll_of_subject (ne_of_mem_monYyyyPairs hps)
              (mem_extractText_of_recMonYyyy
                (by rw [recMonYyyy_pairs]; exact List.mem_map.mpr ⟨q, hps, rfl⟩)),
            by omega⟩
        · obtain ⟨a, ha, hqa⟩ := List.mem_flatMap.mp hpy
          exact ⟨95 + 5,
            mem_extractAll_of_att ha (ne_of_mem_yyyyMonPairs hqa)
              (mem_extractText_of_recYyyyMon
                (by rw [recYyyyMon_pairs]; exact List.mem_map.mpr ⟨q, hqa, rfl⟩)),
            by omega⟩
      obtain ⟨w1, hqm, hw1⟩ := hqmem
      have hkey := hmax.2 _ hqm
      rw [hpeq] at hkey
      exact keyLe_pairLe hkey (by omega)
    · rw [show detect_period subject atts today =
          detectFromCands (extractAll subject atts today) today from rfl,
        detectFromCands_eq _ _ hEne, hpeq]
      rfl

/-- Witness for C6's amended theorem: an attachment-name match decides a
message whose subject has none. -/
theorem mon_yyyy_dominates_witness :
    (["Statements_Aug2025.pdf"] : List String).flatMap monYyyyPairs ≠ [] ∧
    ∃ p ∈ (["Statements_Aug2025.pdf"] : List String).flatMap monYyyyPairs,
      (∀ q ∈ (["Statements_Aug2025.pdf"] : List String).flatMap monYyyyPairs,
        pairLe q p = true) ∧
      detect_period "Monthly Report" ["Statements_Aug2025.pdf"] ⟨2025, 10⟩ =
        clampPair p ⟨2025, 10⟩ :=
  ⟨by decide,
    (mon_yyyy_dominates "Monthly Report" ["Statements_Aug2025.pdf"] ⟨2025, 10⟩).1
      (by decide)⟩

/-- C6 counterexample.  Two concrete refutations of the per-text claim:
the subject `"Jan 2020 Dec 2030"` contains the month-name + 4-digit-year
pair (2020, January) yet the resolver returns (2025, month absent) — a
later pair wins the tie-break and the clamp discards it; and the subject
`"Aug 2024"` contains exactly the pair (2024, August) yet with the
attachment name `"2025 Mar data.xlsx"` in the same message the resolver
returns (2025, 3) — the attachment's bonus-weighted year + month-name
match outranks the subject's pair. -/
theorem mon_yyyy_dominates_cex :
    scanPat patMonYyyy (cleanText "Jan 2020 Dec 2030".data) = [(2020, 1), (2030, 12)] ∧
    detect_period "Jan 2020 Dec 2030" [] ⟨2025, 10⟩ = (2025, none) ∧
    ((2025, none) : Nat × Option Nat) ≠ (2020, some 1) ∧
    monYyyyPairs "Aug 2024" = [(2024, 8)] ∧
    detect_period "Aug 2024" ["2025 Mar data.xlsx"] ⟨2025, 10⟩ = (2025, some 3) ∧
    ((2025, some 3) : Nat × Option Nat) ≠ (2024, some 8) := by
  decide
